import Mathlib

/-!
# Jeopardy board: loader, renderer and click handler

A shallow embedding of `src/jeopardy/jeopardy.js`.

* JavaScript strings are sequences of UTF-16 code units (`JSString`).
* The process-wide `categories` variable, the control button and the content of
  `#table-data` are explicit state (`Page`).
* Rejected promises and thrown `TypeError`s are values of `JSError`; a call returns its
  outcome together with the state it leaves behind.
* What the network answers and what `Math.random` draws are inputs (`Env`).
* What the browser and jQuery decide on a click is an input too (`Engine`); the program only
  creates ids of word characters and hyphens, which jQuery resolves by id.
* Only the elements under `#table-data` and the button are part of the page state; the rest of
  the document is not in the repository.
-/

namespace Jeopardy

/-! ## Strings -/

/-- A JavaScript string: its UTF-16 code units, in order. -/
abbrev JSString := List Nat

/-- The code units of a literal whose characters all lie in the Basic Multilingual Plane. -/
def str (s : String) : JSString := s.toList.map Char.toNat

/-- Resolution of a relative index by `String.prototype.slice`: a negative index counts from
the end, and the result is clamped to `[0, len]`. -/
def relIndex (len : Nat) (k : Int) : Nat :=
  if k < 0 then (((len : Int) + k).toNat) else min k.toNat len

/-- JavaScript `s.slice(start, stop)`. -/
def slice (s : JSString) (start stop : Int) : JSString :=
  let first := relIndex s.length start
  let last := relIndex s.length stop
  (s.drop first).take (last - first)

/-- JavaScript `s.slice(start)`. -/
def sliceFrom (s : JSString) (start : Int) : JSString :=
  s.drop (relIndex s.length start)

/-- JavaScript `s.startsWith(p)`. -/
def startsWith (s p : JSString) : Bool := p.isPrefixOf s

/-- Decimal digits of a number, as `String(n)` or a template literal gives them. -/
def numToString (n : Nat) : JSString := (Nat.toDigits 10 n).map Char.toNat

/-! ## Data model -/

/-- What a call can fail with: a rejected request, a `TypeError` thrown by a property read on
`undefined`, or the error that jQuery throws on a selector expression it cannot parse. -/
inductive JSError where
  | network
  | typeError
  | syntaxError
  deriving DecidableEq, Repr

/-- Value of a clue's `showing` property. -/
inductive Showing where
  | null
  | question
  | answer
  deriving DecidableEq, Repr

/-- An entry of a category's `clues` array. -/
structure Clue where
  question : JSString
  answer : JSString
  showing : Showing
  deriving DecidableEq, Repr

/-- An entry of the `categories` array. -/
structure Category where
  title : JSString
  clues : List Clue
  deriving DecidableEq, Repr

/-- The `categories` array. -/
abbrev Board := List Category

/-- A clue object as the `/clues` endpoint returns it: `question`, `answer` and
`category.title`. -/
structure RawClue where
  question : JSString
  answer : JSString
  categoryTitle : JSString
  deriving DecidableEq, Repr

/-- A category object as the `/categories` endpoint returns it; only `id` is read. -/
structure CatSummary where
  id : Nat
  deriving DecidableEq, Repr

def QUESTION_COUNT : Nat := 5

def CATEGORY_COUNT : Nat := 6

/-! ## Outside world -/

/-- Everything a load reads from outside the program: the draws of `Math.random`, and the
answers of the two endpoints (`Except.error` for a rejected request). -/
structure Env where
  /-- the draw behind the `offset` parameter -/
  offsetDraw : Nat
  /-- answer of `GET /categories` for a given offset -/
  categories : Nat → Except JSError (List CatSummary)
  /-- answer of `GET /clues` for a given category id -/
  clues : Nat → Except JSError (List RawClue)
  /-- draws used to sample the category ids -/
  idDraws : Nat → Nat
  /-- draws used to sample the clues of the category fetched in the given iteration -/
  clueDraws : Nat → Nat → Nat

/-! ## Sampling -/

/-- Exchange of `array[index]` and `array[rand]`. -/
def swapAt {α : Type} (array : List α) (index rand : Nat) : List α :=
  match array[rand]?, array[index]? with
  | some value, some other => (array.set rand other).set index value
  | _, _ => array

/-- Modelled from the spec: lodash is not part of the repository; the spec says the sample is
a uniform random subset of the requested size drawn without replacement. This follows lodash's
`shuffleSelf`: position `index` is exchanged with a position drawn from `index .. length - 1`
(the draw is `draw index`, reduced to that range), for `index < size`, and the first `size`
entries are kept. -/
def shuffleSelf {α : Type} (draw : Nat → Nat) (array : List α) (size : Nat) : List α :=
  ((List.range size).foldl
    (fun arr index => swapAt arr index (index + draw index % (array.length - index)))
    array).take size

/-- Modelled from the spec: lodash `_.sampleSize(collection, n)`, which samples
`min n collection.length` entries. -/
def sampleSize {α : Type} (draw : Nat → Nat) (collection : List α) (n : Nat) : List α :=
  shuffleSelf draw collection (min n collection.length)

/-! ## Data loader (`class Category`) -/

/-- `Category.getCategoryIds`. -/
def getCategoryIds (env : Env) : Except JSError (List Nat) :=
  -- Math.floor(Math.random() * (500 - 1) + 1)
  let offset := 1 + env.offsetDraw % 499
  match env.categories offset with
  | .error e => .error e
  | .ok data =>
    let randomCategories := sampleSize env.idDraws data CATEGORY_COUNT
    .ok (randomCategories.map (fun catObj => catObj.id))

/-- The callback that `getCategory` maps over the sampled clues. -/
def formatClue (question : RawClue) : Clue :=
  let answer :=
    if startsWith question.answer (str "<i>") then slice question.answer 3 (-3)
    else question.answer
  { question := question.question, answer := answer, showing := .null }

/-- `Category.getCategory`, given the draws for its sample. Reading
`response.data[0].category` throws when the response is empty. -/
def getCategory (env : Env) (draw : Nat → Nat) (catId : Nat) : Except JSError Category :=
  match env.clues catId with
  | .error e => .error e
  | .ok data =>
    let selectFiveQuestions := sampleSize draw data QUESTION_COUNT
    let questionArray := selectFiveQuestions.map formatClue
    match data[0]? with
    | none => .error .typeError
    | some first => .ok { title := first.categoryTitle, clues := questionArray }

/-- The `for ... of` loop of `getAllCategoriesAndQuestions`: `k` counts the iterations and
`categories` is the global being pushed to. A rejected fetch ends the loop where it is. -/
def fetchLoop (env : Env) : Nat → List Nat → Board → Except JSError Unit × Board
  | _, [], categories => (.ok (), categories)
  | k, categoryId :: rest, categories =>
    match getCategory env (env.clueDraws k) categoryId with
    | .error e => (.error e, categories)
    | .ok fullCategory => fetchLoop env (k + 1) rest (categories ++ [fullCategory])

/-- `Category.getAllCategoriesAndQuestions`: the outcome of the call and the value of the
global `categories` afterwards. The argument is the global before the call. -/
def getAllCategoriesAndQuestions (env : Env) (_before : Board) :
    Except JSError Board × Board :=
  let categories : Board := []
  match getCategoryIds env with
  | .error e => (.error e, categories)
  | .ok categoryIds =>
    match fetchLoop env 0 categoryIds categories with
    | (.error e, categories) => (.error e, categories)
    | (.ok (), categories) => (.ok categories, categories)

/-! ## Title formatting -/

/-- The built-in case conversions of the engine, `String.prototype.toLowerCase` and
`String.prototype.toUpperCase`. They follow Unicode tables that are not part of the program,
so the program is read relative to them. -/
structure CaseConv where
  toLowerCase : JSString → JSString
  toUpperCase : JSString → JSString

/-- The regular-expression class `\w` (no `u` or `i` flag): `A-Z`, `a-z`, `0-9`, `_`. -/
def isWordUnit (c : Nat) : Bool :=
  (65 ≤ c && c ≤ 90) || (97 ≤ c && c ≤ 122) || (48 ≤ c && c ≤ 57) || c == 95

/-- The regular-expression class `\s`: tab, line feed, vertical tab, form feed, carriage
return, space, no-break space, the Unicode space separators, line and paragraph separator,
and the byte order mark. -/
def isSpaceUnit (c : Nat) : Bool :=
  (9 ≤ c && c ≤ 13) || c == 32 || c == 160 || c == 5760 || (8192 ≤ c && c ≤ 8202) ||
    c == 8232 || c == 8233 || c == 8239 || c == 8287 || c == 12288 || c == 65279

/-- The call `lcStr.replace(/(?:^|\s)\w/g, fn)`: scanning from the left, a word unit at the
very start (`atStart`), or a whitespace unit followed by a word unit, is a match and is
replaced by `fn` of the matched text; the scan resumes after the match. -/
def replaceMatches (fn : JSString → JSString) : Bool → JSString → JSString
  | _, [] => []
  | atStart, [c] => if atStart && isWordUnit c then fn [c] else [c]
  | atStart, c :: d :: rest =>
    if atStart && isWordUnit c then fn [c] ++ replaceMatches fn false (d :: rest)
    else if isSpaceUnit c && isWordUnit d then fn [c, d] ++ replaceMatches fn false rest
    else c :: replaceMatches fn false (d :: rest)

/-- The function `toTitleCase`. -/
def toTitleCase (E : CaseConv) (s : JSString) : JSString :=
  let lcStr := E.toLowerCase s
  replaceMatches (fun m => E.toUpperCase m) true lcStr

/-! ## Page state -/

/-- Tag of an element created by the program. -/
inductive Tag where
  | th
  | td
  deriving DecidableEq, Repr

/-- What a table cell holds: the question-mark glyph (an `<i>` child) or text. -/
inductive Content where
  | glyph
  | text (t : JSString)
  deriving DecidableEq, Repr

/-- A table cell with its `id` attribute, its content and the two classes the program
toggles on it. -/
structure Elem where
  tag : Tag
  id : JSString
  content : Content
  answer : Bool
  notAllowed : Bool
  deriving DecidableEq, Repr

/-- The table built by `fillTable`: the cells of `<thead>`, the rows of `<tbody>`, and the
number of click handlers attached to it. -/
structure Table where
  head : List Elem
  body : List (List Elem)
  handlers : Nat
  deriving DecidableEq, Repr

/-- A child of `#table-data`. -/
inductive Node where
  | spinner
  | table (t : Table)
  deriving DecidableEq, Repr

/-- The control button: its text and its `not-allowed` class. -/
structure Button where
  label : JSString
  notAllowed : Bool
  deriving DecidableEq, Repr

/-- The state of the page: the global `categories`, the button, and the children of
`#table-data`. -/
structure Page where
  categories : Board
  button : Button
  view : List Node
  deriving DecidableEq, Repr

/-! ## Element selection -/

/-- Replace the first entry on which `f` answers, left to right. -/
def replaceFirst {α : Type} (f : α → Option α) : List α → Option (List α)
  | [] => none
  | a :: as =>
    match f a with
    | some b => some (b :: as)
    | none => (replaceFirst f as).map (fun bs => a :: bs)

/-- Apply `g` to a cell when its id is the one looked for. -/
def Elem.onId (id : JSString) (g : Elem → Elem) (e : Elem) : Option Elem :=
  if e.id = id then some (g e) else none

/-- Apply `g` to the first cell of a table, in document order, that has the given id. -/
def Table.update (id : JSString) (g : Elem → Elem) (t : Table) : Option Table :=
  match replaceFirst (Elem.onId id g) t.head with
  | some head => some { t with head := head }
  | none =>
    match replaceFirst (replaceFirst (Elem.onId id g)) t.body with
    | some body => some { t with body := body }
    | none => none

/-- Apply `g` to the first cell of a node that has the given id. -/
def Node.update (id : JSString) (g : Elem → Elem) : Node → Option Node
  | .spinner => none
  | .table t => (Table.update id g t).map Node.table

/-- The effect of a jQuery setter on the selection `$("#" + id)`: the first element with that
id, in document order, is changed by `g`; nothing changes when no element has the id. -/
def updateById (id : JSString) (g : Elem → Elem) (view : List Node) : List Node :=
  (replaceFirst (Node.update id g) view).getD view

/-- What a jQuery setter does to the children of `#table-data`, given the change it makes to
one selected element. -/
abbrev Setter := (Elem → Elem) → List Node → List Node

/-- The parts of a click that the browser and jQuery decide, not the program. -/
structure Engine where
  /-- the keys, other than indices, that name a property of an array: `length` and the
  inherited members -/
  named : JSString → Bool
  /-- the selection for a selector expression that is not `#` followed by word characters and
  hyphens: `none` when jQuery rejects the expression with a syntax error, else the way a setter
  acts through the selection -/
  css : JSString → Option Setter

/-- An id made of word characters and hyphens only, and not empty: for these, and only for
these, jQuery resolves `#` + id with `document.getElementById`. -/
def isPlainId (id : JSString) : Bool :=
  !id.isEmpty && id.all (fun c => isWordUnit c || c == 45)

/-- The call `$("#" + id)`, as the setter acting through the selection it returns. -/
def select (eng : Engine) (id : JSString) : Option Setter :=
  if isPlainId id then some (updateById id) else eng.css (str "#" ++ id)

/-- The cells of a table in document order. -/
def Table.elems (t : Table) : List Elem := t.head ++ t.body.flatten

/-- The cells of a node in document order. -/
def Node.elems : Node → List Elem
  | .spinner => []
  | .table t => t.elems

/-- The element that `$("#" + id)` selects, if any. -/
def findById (id : JSString) (view : List Node) : Option Elem :=
  ((view.map Node.elems).flatten).find? (fun e => e.id = id)

/-! ## Property reads on arrays -/

/-- Result of reading `array[key]` with a string key. -/
inductive Lookup (α : Type) where
  /-- no such property -/
  | undefined
  /-- the entry at an index -/
  | element (index : Nat) (a : α)
  /-- a property that is not an entry, such as `length` or an inherited method -/
  | other

/-- The digit units `0` to `9`. -/
def isDigitUnit (c : Nat) : Bool := 48 ≤ c && c ≤ 57

/-- Value of a run of decimal digits. -/
def digitsValue (s : JSString) : Nat := s.foldl (fun acc c => 10 * acc + (c - 48)) 0

/-- The array index a property key denotes: the key must be the canonical decimal form of a
number (digits only, no leading zero unless it is `0` itself). -/
def arrayIndex (key : JSString) : Option Nat :=
  match key with
  | [] => none
  | [c] => if isDigitUnit c then some (c - 48) else none
  | c :: rest =>
    if isDigitUnit c && c != 48 && rest.all isDigitUnit then some (digitsValue key) else none

/-- Reading `array[key]`. `named` tells which keys that are not indices still name a property
of an array (`length` and the inherited members); that set belongs to the engine. -/
def getProp {α : Type} (named : JSString → Bool) (array : List α) (key : JSString) :
    Lookup α :=
  match arrayIndex key with
  | some n =>
    match array[n]? with
    | some a => .element n a
    | none => .undefined
  | none => if named key then .other else .undefined

/-! ## Renderer and controller -/

/-- The id that `fillTable` gives the cell of column `i`, row `j`. -/
def cellId (i j : Nat) : JSString := numToString i ++ str "-" ++ numToString j

/-- The rows of `<tbody>` that `fillTable` builds. -/
def bodyRows : List (List Elem) :=
  (List.range QUESTION_COUNT).map fun j =>
    (List.range CATEGORY_COUNT).map fun i =>
      { tag := .td, id := cellId i j, content := .glyph, answer := false, notAllowed := false }

/-- The header loop of `fillTable` over the remaining values of `k`: reading
`categories[k].title` throws when there is no such category. -/
def headCells (E : CaseConv) (categories : Board) : List Nat → Option (List Elem)
  | [] => some []
  | k :: ks =>
    match categories[k]? with
    | none => none
    | some cat =>
      (headCells E categories ks).map fun cells =>
        { tag := .th, id := str "cat-" ++ numToString k,
          content := .text (toTitleCase E cat.title), answer := false, notAllowed := false }
          :: cells

/-- The function `fillTable`: the table is appended to `#table-data` only when the header
loop completes. -/
def fillTable (E : CaseConv) (p : Page) : Except JSError Unit × Page :=
  match headCells E p.categories (List.range CATEGORY_COUNT) with
  | none => (.error .typeError, p)
  | some head =>
    (.ok (), { p with view := p.view ++ [.table { head := head, body := bodyRows, handlers := 0 }] })

/-- The function `showQuestionOrAnswer`. The selection and both property reads, which are the
steps that can throw, come before any write, so a throw leaves the page as it was. -/
def showQuestionOrAnswer (eng : Engine) (id : JSString) (p : Page) :
    Except JSError Unit × Page :=
  match select eng id with
  | none => (.error .syntaxError, p)
  | some clickedCell =>
    let category := slice id 0 1
    let question := sliceFrom id 2
    match getProp eng.named p.categories category with
    | .undefined => (.error .typeError, p)
    | .other => (.error .typeError, p)
    | .element ci cat =>
      match getProp eng.named cat.clues question with
      | .undefined => (.error .typeError, p)
      | .other => (.ok (), p)
      | .element qi theCell =>
        let theQuestion := theCell.question
        let theAnswer := theCell.answer
        match theCell.showing with
        | .null =>
          (.ok (),
            { p with
              view := clickedCell (fun e => { e with content := .text theQuestion }) p.view
              categories := p.categories.set ci
                { cat with clues := cat.clues.set qi { theCell with showing := .question } } })
        | .question =>
          (.ok (),
            { p with
              view := clickedCell
                (fun e => { e with
                  answer := !e.answer, content := .text theAnswer,
                  notAllowed := !e.notAllowed })
                p.view
              categories := p.categories.set ci
                { cat with clues := cat.clues.set qi { theCell with showing := .answer } } })
        | .answer => (.ok (), p)

/-- The function `showLoadingView`. -/
def showLoadingView (p : Page) : Page :=
  { p with
    button := { label := str "Loading...", notAllowed := !p.button.notAllowed }
    view := [.spinner] }

/-- The function `hideLoadingView`. -/
def hideLoadingView (p : Page) : Page :=
  { p with
    button := { label := str "Restart", notAllowed := !p.button.notAllowed }
    view := [] }

/-- The function `addListeners`: every table of the page gets one more click handler. -/
def addListeners (p : Page) : Page :=
  { p with
    view := p.view.map fun n =>
      match n with
      | .spinner => .spinner
      | .table t => .table { t with handlers := t.handlers + 1 } }

/-- The function `setupAndStart`. A rejected load rejects the call at the `await`, so nothing
after it runs. `fillTable` is asynchronous and not awaited: a throw inside it is dropped and
`addListeners` still runs. -/
def setupAndStart (E : CaseConv) (env : Env) (p : Page) : Except JSError Unit × Page :=
  let p1 := showLoadingView p
  match getAllCategoriesAndQuestions env p1.categories with
  | (.error e, categories) => (.error e, { p1 with categories := categories })
  | (.ok _, categories) =>
    let p2 := hideLoadingView { p1 with categories := categories }
    let p3 := (fillTable E p2).2
    let p4 := addListeners p3
    (.ok (), p4)

/-! ## A concrete case conversion -/

/-- Lower case of one code unit below 256 (Basic Latin and Latin-1 Supplement). -/
def lowerUnit (c : Nat) : Nat :=
  if (65 ≤ c ∧ c ≤ 90) ∨ (192 ≤ c ∧ c ≤ 222 ∧ c ≠ 215) then c + 32 else c

/-- Upper case of one code unit below 256: `ß` becomes `SS`, `µ` and `ÿ` leave the block. -/
def upperUnit (c : Nat) : JSString :=
  if (97 ≤ c ∧ c ≤ 122) ∨ (224 ≤ c ∧ c ≤ 254 ∧ c ≠ 247) then [c - 32]
  else if c = 223 then [83, 83]
  else if c = 181 then [924]
  else if c = 255 then [376]
  else [c]

/-- Upper case of a string, unit by unit. -/
def upperUnits : JSString → JSString
  | [] => []
  | c :: rest => upperUnit c ++ upperUnits rest

/-- The case conversions of the engine on strings whose code units are all below 256 or
caseless; used to evaluate the program on concrete titles. -/
def latin1 : CaseConv where
  toLowerCase := fun s => s.map lowerUnit
  toUpperCase := upperUnits

/-- Upper case of an ASCII letter; other units are kept. -/
def asciiUpper (c : Nat) : Nat := if 97 ≤ c ∧ c ≤ 122 then c - 32 else c

/-- The clue that `showQuestionOrAnswer` reads as `theCell` for an id, that is
`categories[id.slice(0, 1)].clues[id.slice(2)]`, when both reads yield an entry. -/
def cellClue (named : JSString → Bool) (id : JSString) (categories : Board) : Option Clue :=
  match getProp named categories (slice id 0 1) with
  | .element _ cat =>
    match getProp named cat.clues (sliceFrom id 2) with
    | .element _ theCell => some theCell
    | _ => none
  | _ => none

/-- The clue at `categories[i].clues[j]`, read with number indices. -/
def clueAt (categories : Board) (i j : Nat) : Option Clue :=
  (categories[i]?).bind (fun cat => cat.clues[j]?)

/-- The reading of the specification, in its words: the first unit of every
whitespace-delimited run is replaced by its upper case. `afterSpace` tells whether the current
position is the start of the string or follows a whitespace unit. -/
def upcaseRunStarts (upper : JSString → JSString) : Bool → JSString → JSString
  | _, [] => []
  | afterSpace, c :: rest =>
    (if afterSpace && !isSpaceUnit c then upper [c] else [c])
      ++ upcaseRunStarts upper (isSpaceUnit c) rest

/-- The specification of title casing, in its words: the input lowercased with the first
character of every whitespace-delimited run uppercased. -/
def specTitleCase (E : CaseConv) (s : JSString) : JSString :=
  upcaseRunStarts E.toUpperCase true (E.toLowerCase s)

/-- Upper case for the ASCII word units that start the string or follow a whitespace unit;
every other unit is kept. -/
def upcaseWordStarts : Bool → JSString → JSString
  | _, [] => []
  | afterSpace, c :: rest =>
    (if afterSpace && isWordUnit c then asciiUpper c else c)
      :: upcaseWordStarts (isSpaceUnit c) rest

/-- Lower case of an ASCII letter; other units are kept. -/
def asciiLower (c : Nat) : Nat := if 65 ≤ c ∧ c ≤ 90 then c + 32 else c

/-! ## Concrete inputs -/

/-- A raw clue whose answer comes wrapped in italics. -/
def plathClue : RawClue :=
  { question := str "Bell Jar Author", answer := str "<i>Plath</i>",
    categoryTitle := str "literature" }

/-- A raw clue whose answer comes unwrapped. -/
def hamletClue : RawClue :=
  { question := str "Hamlet Author", answer := str "Shakespeare",
    categoryTitle := str "literature" }

/-- A world with six categories listed, in which every category holds the single clue
`plathClue`. All draws are `0`, so samples keep the order of the response. -/
def plathEnv : Env :=
  { offsetDraw := 0
    categories := fun _ => .ok [⟨1⟩, ⟨2⟩, ⟨3⟩, ⟨4⟩, ⟨5⟩, ⟨6⟩]
    clues := fun _ => .ok [plathClue]
    idDraws := fun _ => 0
    clueDraws := fun _ _ => 0 }

/-- A world in which every category holds the single clue `hamletClue`. -/
def hamletEnv : Env :=
  { plathEnv with clues := fun _ => .ok [hamletClue] }

/-- A world in which the categories with an id above `2` cannot be fetched. -/
def brokenEnv : Env :=
  { plathEnv with clues := fun catId => if catId ≤ 2 then .ok [hamletClue] else .error .network }

/-- A board left over from an earlier game. -/
def oldBoard : Board :=
  [{ title := str "math", clues := [{ question := str "2+2", answer := str "4", showing := .answer }] }]

/-- A world with six categories listed, each holding five raw clues. -/
def fullEnv : Env :=
  { plathEnv with
    clues := fun _ => .ok [hamletClue, plathClue, hamletClue, plathClue, hamletClue] }

/-- The page before the first game. -/
def startPage : Page :=
  { categories := [], button := { label := str "Start", notAllowed := false }, view := [] }

/-- The page after a game was set up in the world `fullEnv`. -/
def readyPage : Page := (setupAndStart latin1 fullEnv startPage).2

/-- An engine in which `length` is the only property of an array besides its entries, and
in which jQuery rejects every selector expression that is not a plain `#id`. -/
def lengthOnly : Engine :=
  { named := fun key => key == str "length", css := fun _ => none }

/-- A world in which the category list cannot be fetched. -/
def offlineEnv : Env :=
  { plathEnv with categories := fun _ => .error .network }

/-! ## Facts about sampling -/

theorem swapAt_length {α : Type} (array : List α) (index rand : Nat) :
    (swapAt array index rand).length = array.length := by
  unfold swapAt
  split <;> simp

theorem swapAt_subset {α : Type} (array : List α) (index rand : Nat) :
    ∀ x ∈ swapAt array index rand, x ∈ array := by
  intro x hx
  unfold swapAt at hx
  split at hx
  next value other hv ho =>
    rcases List.mem_or_eq_of_mem_set hx with h | h
    · rcases List.mem_or_eq_of_mem_set h with h2 | h2
      · exact h2
      · subst h2
        exact List.getElem?_mem ho
    · subst h
      exact List.getElem?_mem hv
  next => exact hx

theorem swaps_length {α : Type} (f : Nat → Nat) (steps : List Nat) (array : List α) :
    (steps.foldl (fun arr index => swapAt arr index (f index)) array).length
      = array.length := by
  induction steps generalizing array with
  | nil => rfl
  | cons k ks ih => simp only [List.foldl_cons]; rw [ih, swapAt_length]

theorem swaps_subset {α : Type} (f : Nat → Nat) (steps : List Nat) (array : List α) :
    ∀ x ∈ steps.foldl (fun arr index => swapAt arr index (f index)) array, x ∈ array := by
  induction steps generalizing array with
  | nil => intro x hx; exact hx
  | cons k ks ih =>
    intro x hx
    simp only [List.foldl_cons] at hx
    exact swapAt_subset _ _ _ x (ih _ x hx)

theorem sampleSize_length {α : Type} (draw : Nat → Nat) (collection : List α) (n : Nat) :
    (sampleSize draw collection n).length = min n collection.length := by
  unfold sampleSize shuffleSelf
  rw [List.length_take, swaps_length (fun index => index + draw index % (collection.length - index))]
  omega

theorem sampleSize_subset {α : Type} (draw : Nat → Nat) (collection : List α) (n : Nat) :
    ∀ x ∈ sampleSize draw collection n, x ∈ collection := by
  intro x hx
  unfold sampleSize shuffleSelf at hx
  exact swaps_subset (fun index => index + draw index % (collection.length - index)) _ _ x
    (List.mem_of_mem_take hx)

/-! ## The data loader -/

theorem slice_italic (t : JSString) :
    slice (str "<i>" ++ t ++ str "</i>") 3 (-3) = t ++ str "<" := by
  have h1 : str "<i>" = [60, 105, 62] := by decide
  have h2 : str "</i>" = [60, 47, 105, 62] := by decide
  have h3 : str "<" = [60] := by decide
  rw [h1, h2, h3]
  simp only [slice, relIndex, List.length_append, List.length_cons, List.length_nil]
  have e1 : ¬ ((3 : Int) < 0) := by omega
  have e2 : ((-3 : Int) < 0) := by omega
  simp only [e1, e2, if_true, if_false]
  have e3 : min (3 : Int).toNat (0 + 1 + 1 + 1 + t.length + (0 + 1 + 1 + 1 + 1)) = 3 := by
    simp
  have e4 : ((((0 + 1 + 1 + 1 + t.length + (0 + 1 + 1 + 1 + 1) : Nat) : Int) + -3).toNat)
      = t.length + 4 := by omega
  rw [e3, e4]
  have e5 : t.length + 4 - 3 = t.length + 1 := by omega
  rw [e5]
  simp [List.take_append_eq_append_take]

/-- C2: on the raw answer `<i>Plath</i>` the clue stored by `getCategory` has the answer
`Plath<`, not `Plath`; in general `<i>` + t + `</i>` is stored as t + `<`, because
`slice(3, -3)` removes three of the four closing characters. -/
theorem getCategory_italic_answer :
    getCategory plathEnv (fun _ => 0) 1
        = .ok { title := str "literature",
                clues := [{ question := str "Bell Jar Author", answer := str "Plath<",
                            showing := .null }] }
      ∧ ∀ (q t ttl : JSString),
          (formatClue { question := q, answer := str "<i>" ++ t ++ str "</i>",
                        categoryTitle := ttl }).answer = t ++ str "<" := by
  refine ⟨by rfl, ?_⟩
  intro q t ttl
  have hp : startsWith (str "<i>" ++ t ++ str "</i>") (str "<i>") = true := by
    simp [startsWith, List.append_assoc]
  simp only [formatClue, hp, if_true]
  exact slice_italic t

theorem getCategory_ok (env : Env) (draw : Nat → Nat) (catId : Nat) (first : RawClue)
    (rest : List RawClue) (h : env.clues catId = .ok (first :: rest)) :
    getCategory env draw catId
      = .ok { title := first.categoryTitle,
              clues := (sampleSize draw (first :: rest) QUESTION_COUNT).map formatClue } := by
  simp [getCategory, h]

theorem getCategory_empty (env : Env) (draw : Nat → Nat) (catId : Nat)
    (h : env.clues catId = .ok []) :
    getCategory env draw catId = .error .typeError := by
  simp [getCategory, h]

theorem getCategory_rejected (env : Env) (draw : Nat → Nat) (catId : Nat) (e : JSError)
    (h : env.clues catId = .error e) :
    getCategory env draw catId = .error e := by
  simp [getCategory, h]

/-- C8: when the response holds at least one raw clue, `getCategory` returns a category with
one clue per sampled raw clue, every sampled raw clue is one of the response, and a sampled raw
clue whose answer does not begin with `<i>` yields the clue with exactly that answer, the raw
question and `showing = null`; the answer `Shakespeare` is unchanged. -/
theorem getCategory_plain_answer (env : Env) (draw : Nat → Nat) (catId : Nat)
    (data : List RawClue) (hresp : env.clues catId = .ok data) (hne : data ≠ []) :
    ∃ cat, getCategory env draw catId = .ok cat
      ∧ cat.clues.length = (sampleSize draw data QUESTION_COUNT).length
      ∧ (∀ raw ∈ sampleSize draw data QUESTION_COUNT, raw ∈ data)
      ∧ (∀ (k : Nat) (raw : RawClue), (sampleSize draw data QUESTION_COUNT)[k]? = some raw →
          startsWith raw.answer (str "<i>") = false →
          cat.clues[k]? = some { question := raw.question, answer := raw.answer,
                                 showing := .null })
      ∧ ∀ (q ttl : JSString),
          formatClue { question := q, answer := str "Shakespeare", categoryTitle := ttl }
            = { question := q, answer := str "Shakespeare", showing := .null } := by
  cases data with
  | nil => exact absurd rfl hne
  | cons first rest =>
    refine ⟨_, getCategory_ok env draw catId first rest hresp, ?_, ?_, ?_, ?_⟩
    · simp
    · exact sampleSize_subset draw _ _
    · intro k raw hk hplain
      simp [List.getElem?_map, hk, formatClue, hplain]
    · intro q ttl
      have hp : startsWith (str "Shakespeare") (str "<i>") = false := by decide
      simp [formatClue, hp]

/-- C8, at the clue `hamletClue`: the stored answer is `Shakespeare`. -/
theorem getCategory_plain_answer_witness :
    ∃ cat, getCategory hamletEnv (fun _ => 0) 1 = .ok cat
      ∧ cat.clues.length = (sampleSize (fun _ => 0) [hamletClue] QUESTION_COUNT).length
      ∧ (∀ raw ∈ sampleSize (fun _ => 0) [hamletClue] QUESTION_COUNT, raw ∈ [hamletClue])
      ∧ (∀ (k : Nat) (raw : RawClue),
          (sampleSize (fun _ => 0) [hamletClue] QUESTION_COUNT)[k]? = some raw →
          startsWith raw.answer (str "<i>") = false →
          cat.clues[k]? = some { question := raw.question, answer := raw.answer,
                                 showing := .null })
      ∧ ∀ (q ttl : JSString),
          formatClue { question := q, answer := str "Shakespeare", categoryTitle := ttl }
            = { question := q, answer := str "Shakespeare", showing := .null } :=
  getCategory_plain_answer hamletEnv (fun _ => 0) 1 [hamletClue] rfl (by decide)

/-- C3, as stated, fails: a response with a single raw clue gives a category with one clue,
so a returned category need not have 5 clues. -/
theorem getCategory_short_list :
    getCategory hamletEnv (fun _ => 0) 1
        = .ok { title := str "literature",
                clues := [{ question := str "Hamlet Author", answer := str "Shakespeare",
                            showing := .null }] }
      ∧ ¬ ∀ (env : Env) (draw : Nat → Nat) (catId : Nat) (cat : Category),
          getCategory env draw catId = .ok cat → cat.clues.length = 5 := by
  have h : getCategory hamletEnv (fun _ => 0) 1
        = .ok { title := str "literature",
                clues := [{ question := str "Hamlet Author", answer := str "Shakespeare",
                            showing := .null }] } := by rfl
  refine ⟨h, ?_⟩
  intro hall
  have h5 := hall hamletEnv (fun _ => 0) 1 _ h
  simp at h5

/-- C3, amended: a rejected request rejects the call, an empty response makes it throw, and a
response with `n ≥ 1` raw clues gives a category with exactly `min 5 n` clues, hence exactly 5
when `n ≥ 5` and `n` of them when `n` is 1 to 4. -/
theorem getCategory_clue_count (env : Env) (draw : Nat → Nat) (catId : Nat) :
    (∀ e, env.clues catId = .error e → getCategory env draw catId = .error e)
      ∧ (env.clues catId = .ok [] → getCategory env draw catId = .error .typeError)
      ∧ ∀ data, env.clues catId = .ok data → data ≠ [] →
          ∃ cat, getCategory env draw catId = .ok cat
            ∧ cat.clues.length = min QUESTION_COUNT data.length
            ∧ (QUESTION_COUNT ≤ data.length → cat.clues.length = 5)
            ∧ (data.length < QUESTION_COUNT → cat.clues.length = data.length) := by
  refine ⟨getCategory_rejected env draw catId, getCategory_empty env draw catId, ?_⟩
  intro data hresp hne
  cases data with
  | nil => exact absurd rfl hne
  | cons first rest =>
    refine ⟨_, getCategory_ok env draw catId first rest hresp, ?_, ?_, ?_⟩
    · simp [sampleSize_length]
    · intro h
      simp only [List.length_map, sampleSize_length]
      simp only [QUESTION_COUNT] at h ⊢
      omega
    · intro h
      simp only [List.length_map, sampleSize_length]
      omega

/-- C3, amended, at a response with one raw clue: the category has one clue. -/
theorem getCategory_clue_count_witness :
    ∃ cat, getCategory hamletEnv (fun _ => 0) 1 = .ok cat
      ∧ cat.clues.length = min QUESTION_COUNT [hamletClue].length
      ∧ (QUESTION_COUNT ≤ [hamletClue].length → cat.clues.length = 5)
      ∧ ([hamletClue].length < QUESTION_COUNT → cat.clues.length = [hamletClue].length) :=
  (getCategory_clue_count hamletEnv (fun _ => 0) 1).2.2 [hamletClue] rfl (by decide)

theorem getCategory_ok_inv (env : Env) (draw : Nat → Nat) (catId : Nat) (cat : Category)
    (h : getCategory env draw catId = .ok cat) :
    ∃ data, env.clues catId = .ok data ∧ data ≠ []
      ∧ cat.clues.length = min QUESTION_COUNT data.length := by
  cases hresp : env.clues catId with
  | error e => rw [getCategory_rejected env draw catId e hresp] at h; cases h
  | ok data =>
    cases data with
    | nil => rw [getCategory_empty env draw catId hresp] at h; cases h
    | cons first rest =>
      rw [getCategory_ok env draw catId first rest hresp] at h
      injection h with h
      subst h
      exact ⟨first :: rest, rfl, by simp, by simp [sampleSize_length]⟩

theorem fetchLoop_spec (env : Env) (ids : List Nat) :
    ∀ (k : Nat) (acc : Board), ∃ fetched,
      (fetchLoop env k ids acc).2 = acc ++ fetched
        ∧ (∀ c ∈ fetched, 1 ≤ c.clues.length ∧ c.clues.length ≤ QUESTION_COUNT)
        ∧ (((fetchLoop env k ids acc).1 = .ok () ∧ fetched.length = ids.length)
            ∨ ((∃ e, (fetchLoop env k ids acc).1 = .error e)
                ∧ fetched.length < ids.length)) := by
  induction ids with
  | nil => intro k acc; exact ⟨[], by simp [fetchLoop]⟩
  | cons id rest ih =>
    intro k acc
    cases hget : getCategory env (env.clueDraws k) id with
    | error e =>
      refine ⟨[], ?_, ?_, ?_⟩
      · simp [fetchLoop, hget]
      · intro c hc; cases hc
      · right; exact ⟨⟨e, by simp [fetchLoop, hget]⟩, by simp⟩
    | ok full =>
      obtain ⟨fetched, h2, hall, hres⟩ := ih (k + 1) (acc ++ [full])
      obtain ⟨data, _, hne, hlen⟩ := getCategory_ok_inv env _ id full hget
      have hpos : 0 < data.length := List.length_pos.mpr hne
      refine ⟨full :: fetched, ?_, ?_, ?_⟩
      · simp only [fetchLoop, hget]; rw [h2]; simp
      · intro c hc
        rcases List.mem_cons.mp hc with h | h
        · subst h; simp only [QUESTION_COUNT] at hlen ⊢; omega
        · exact hall c h
      · simp only [fetchLoop, hget, List.length_cons]
        rcases hres with ⟨h1, hl⟩ | ⟨h1, hl⟩
        · left; exact ⟨h1, by omega⟩
        · right; exact ⟨h1, by omega⟩

theorem fetchLoop_full (env : Env) (ids : List Nat)
    (hids : ∀ id ∈ ids, ∃ data, env.clues id = .ok data ∧ QUESTION_COUNT ≤ data.length) :
    ∀ (k : Nat) (acc : Board), ∃ fetched,
      fetchLoop env k ids acc = (.ok (), acc ++ fetched)
        ∧ fetched.length = ids.length
        ∧ ∀ c ∈ fetched, c.clues.length = QUESTION_COUNT := by
  induction ids with
  | nil => intro k acc; exact ⟨[], by simp [fetchLoop]⟩
  | cons id rest ih =>
    intro k acc
    obtain ⟨data, hresp, hlen⟩ := hids id (List.mem_cons_self _ _)
    cases data with
    | nil => simp [QUESTION_COUNT] at hlen
    | cons first more =>
      have hget := getCategory_ok env (env.clueDraws k) id first more hresp
      have hfl : (sampleSize (env.clueDraws k) (first :: more) QUESTION_COUNT).length
          = QUESTION_COUNT := by
        rw [sampleSize_length]; omega
      generalize hfull : Category.mk first.categoryTitle
          ((sampleSize (env.clueDraws k) (first :: more) QUESTION_COUNT).map formatClue)
          = full at hget
      have hfc : full.clues.length = QUESTION_COUNT := by
        subst hfull; simpa using hfl
      obtain ⟨fetched, h1, h2, h3⟩ :=
        ih (fun i hi => hids i (List.mem_cons_of_mem _ hi)) (k + 1) (acc ++ [full])
      refine ⟨full :: fetched, ?_, ?_, ?_⟩
      · simp only [fetchLoop, hget]; rw [h1]; simp
      · simp [h2]
      · intro c hc
        rcases List.mem_cons.mp hc with h | h
        · subst h; exact hfc
        · exact h3 c h

theorem getCategoryIds_ok (env : Env) (cats : List CatSummary)
    (h : env.categories (1 + env.offsetDraw % 499) = .ok cats) :
    getCategoryIds env
      = .ok ((sampleSize env.idDraws cats CATEGORY_COUNT).map (fun catObj => catObj.id)) := by
  simp [getCategoryIds, h]

theorem getCategoryIds_rejected (env : Env) (e : JSError)
    (h : env.categories (1 + env.offsetDraw % 499) = .error e) :
    getCategoryIds env = .error e := by
  simp [getCategoryIds, h]

/-- C4, as stated, fails: with the old board in place and the third category fetch rejected,
the call fails and leaves a board of two categories with one clue each, not the old board. -/
theorem getAllCategoriesAndQuestions_partial_board :
    getAllCategoriesAndQuestions brokenEnv oldBoard
        = (.error .network,
            [{ title := str "literature",
               clues := [{ question := str "Hamlet Author", answer := str "Shakespeare",
                           showing := .null }] },
             { title := str "literature",
               clues := [{ question := str "Hamlet Author", answer := str "Shakespeare",
                           showing := .null }] }])
      ∧ (getAllCategoriesAndQuestions brokenEnv oldBoard).2 ≠ oldBoard :=
  ⟨by rfl, by decide⟩

theorem load_outcome_sizes (env : Env) (before : Board) :
    getAllCategoriesAndQuestions env before = getAllCategoriesAndQuestions env []
      ∧ (∀ b, (getAllCategoriesAndQuestions env before).1 = .ok b →
          (getAllCategoriesAndQuestions env before).2 = b)
      ∧ (getAllCategoriesAndQuestions env before).2.length ≤ CATEGORY_COUNT
      ∧ (∀ c ∈ (getAllCategoriesAndQuestions env before).2,
          1 ≤ c.clues.length ∧ c.clues.length ≤ QUESTION_COUNT)
      ∧ (∀ e, (getAllCategoriesAndQuestions env before).1 = .error e →
          (getAllCategoriesAndQuestions env before).2.length < CATEGORY_COUNT)
      ∧ (∀ cats b, env.categories (1 + env.offsetDraw % 499) = .ok cats →
          (getAllCategoriesAndQuestions env before).1 = .ok b →
          b.length = min CATEGORY_COUNT cats.length)
      ∧ (∀ cats, env.categories (1 + env.offsetDraw % 499) = .ok cats →
          CATEGORY_COUNT ≤ cats.length →
          (∀ c ∈ cats, ∃ data, env.clues c.id = .ok data ∧ QUESTION_COUNT ≤ data.length) →
          (getAllCategoriesAndQuestions env before).1
              = .ok (getAllCategoriesAndQuestions env before).2
            ∧ (getAllCategoriesAndQuestions env before).2.length = CATEGORY_COUNT
            ∧ ∀ c ∈ (getAllCategoriesAndQuestions env before).2,
                c.clues.length = QUESTION_COUNT) := by
  refine ⟨rfl, ?_⟩
  cases hresp : env.categories (1 + env.offsetDraw % 499) with
  | error e =>
    have hout : getAllCategoriesAndQuestions env before = (.error e, []) := by
      simp [getAllCategoriesAndQuestions, getCategoryIds_rejected env e hresp]
    rw [hout]
    refine ⟨?_, ?_, ?_, ?_, ?_, ?_⟩
    · intro b hb; cases hb
    · simp
    · intro c hc; cases hc
    · intro _ _; simp [CATEGORY_COUNT]
    · intro cats b hc; cases hc
    · intro cats hc; cases hc
  | ok cats =>
    have hids := getCategoryIds_ok env cats hresp
    have hlen : ((sampleSize env.idDraws cats CATEGORY_COUNT).map
        (fun catObj => catObj.id)).length = min CATEGORY_COUNT cats.length := by
      simp [sampleSize_length]
    have hmem : ∀ id ∈ (sampleSize env.idDraws cats CATEGORY_COUNT).map
        (fun catObj => catObj.id), ∃ c ∈ cats, c.id = id := by
      intro id hid
      obtain ⟨c, hc, rfl⟩ := List.mem_map.mp hid
      exact ⟨c, sampleSize_subset _ _ _ c hc, rfl⟩
    generalize (sampleSize env.idDraws cats CATEGORY_COUNT).map (fun catObj => catObj.id)
      = ids at hids hlen hmem
    obtain ⟨fetched, h2, hall, hres⟩ := fetchLoop_spec env ids 0 []
    have hfull : ∀ cats2, (Except.ok cats : Except JSError (List CatSummary)) = .ok cats2 → CATEGORY_COUNT ≤ cats2.length →
        (∀ c ∈ cats2, ∃ data, env.clues c.id = .ok data ∧ QUESTION_COUNT ≤ data.length) →
        fetchLoop env 0 ids [] = (.ok (), fetched) ∧ fetched.length = CATEGORY_COUNT
          ∧ ∀ c ∈ fetched, c.clues.length = QUESTION_COUNT := by
      intro cats2 heq hsix hfive
      injection heq with heq
      subst heq
      obtain ⟨f2, e1, e2, e3⟩ := fetchLoop_full env ids
        (fun id hid => by
          obtain ⟨c, hc, hcid⟩ := hmem id hid
          rw [← hcid]; exact hfive c hc) 0 []
      have : f2 = fetched := by
        have := congrArg Prod.snd e1
        simp only [h2, List.nil_append] at this
        exact this.symm
      subst this
      exact ⟨by simpa using e1, by omega, e3⟩
    rcases hfl : fetchLoop env 0 ids [] with ⟨r, after⟩
    rw [hfl] at h2 hres hfull
    simp only [List.nil_append] at h2
    subst h2
    rcases hres with ⟨h1, hl⟩ | ⟨⟨e, h1⟩, hl⟩
    · simp only at h1
      subst h1
      have hout : getAllCategoriesAndQuestions env before = (.ok after, after) := by
        simp [getAllCategoriesAndQuestions, hids, hfl]
      rw [hout]
      refine ⟨?_, ?_, hall, ?_, ?_, ?_⟩
      · intro b hb; injection hb with hb
      · simp only; omega
      · intro e he; cases he
      · intro cats2 b heq hb
        injection heq with heq
        injection hb with hb
        subst heq hb
        omega
      · intro cats2 heq hsix hfive
        obtain ⟨_, e2, e3⟩ := hfull cats2 heq hsix hfive
        exact ⟨rfl, e2, e3⟩
    · simp only at h1
      subst h1
      have hout : getAllCategoriesAndQuestions env before = (.error e, after) := by
        simp [getAllCategoriesAndQuestions, hids, hfl]
      rw [hout]
      refine ⟨?_, ?_, hall, ?_, ?_, ?_⟩
      · intro b hb; cases hb
      · simp only; omega
      · intro _ _; simp only; omega
      · intro cats2 b _ hb; cases hb
      · intro cats2 heq hsix hfive
        obtain ⟨e1, _, _⟩ := hfull cats2 heq hsix hfive
        cases e1


theorem fetchLoop_exact (env : Env) (ids : List Nat) :
    ∀ (k : Nat) (acc : Board), ∃ fetched,
      (fetchLoop env k ids acc).2 = acc ++ fetched
        ∧ (∀ (i : Nat) (cat : Category), fetched[i]? = some cat →
            ∃ id, ids[i]? = some id ∧ getCategory env (env.clueDraws (k + i)) id = .ok cat)
        ∧ (((fetchLoop env k ids acc).1 = .ok () ∧ fetched.length = ids.length)
            ∨ ∃ id e, ids[fetched.length]? = some id
                ∧ getCategory env (env.clueDraws (k + fetched.length)) id = .error e
                ∧ (fetchLoop env k ids acc).1 = .error e) := by
  induction ids with
  | nil =>
    intro k acc
    refine ⟨[], by simp [fetchLoop], ?_, Or.inl ⟨by simp [fetchLoop], rfl⟩⟩
    intro i cat h
    simp at h
  | cons id rest ih =>
    intro k acc
    cases hget : getCategory env (env.clueDraws k) id with
    | error e =>
      refine ⟨[], by simp [fetchLoop, hget], ?_, Or.inr ⟨id, e, ?_, ?_, ?_⟩⟩
      · intro i cat h
        simp at h
      · simp
      · simpa using hget
      · simp [fetchLoop, hget]
    | ok full =>
      obtain ⟨fetched, h2, hall, hres⟩ := ih (k + 1) (acc ++ [full])
      refine ⟨full :: fetched, ?_, ?_, ?_⟩
      · simp only [fetchLoop, hget]; rw [h2]; simp
      · intro i cat h
        cases i with
        | zero =>
          simp only [List.getElem?_cons_zero, Option.some.injEq] at h
          subst h
          exact ⟨id, by simp, by simpa using hget⟩
        | succ i =>
          simp only [List.getElem?_cons_succ] at h
          obtain ⟨id2, e1, e2⟩ := hall i cat h
          refine ⟨id2, by simpa using e1, ?_⟩
          have hk : k + (i + 1) = k + 1 + i := by omega
          rw [hk]
          exact e2
      · simp only [fetchLoop, hget, List.length_cons]
        rcases hres with ⟨h1, hl⟩ | ⟨id2, e, e1, e2, e3⟩
        · left; exact ⟨h1, by omega⟩
        · right
          refine ⟨id2, e, by simpa using e1, ?_, e3⟩
          have hk : k + (fetched.length + 1) = k + 1 + fetched.length := by omega
          rw [hk]
          exact e2

/-- C4, amended: the call does not depend on the board before it; the board it leaves is the
one it returns when it succeeds; that board has at most 6 categories (exactly `min 6 n` on
success, for a category list of `n` entries; fewer than 6 on failure), each with 1 to 5 clues;
when the category list has at least 6 entries and every listed category at least 5 raw
clues, the call succeeds with exactly 6 categories of exactly 5 clues; when the id request is
rejected the call fails with that error and leaves the empty board; and otherwise the board
left behind holds, in order, exactly the categories fetched for the sampled ids up to the
first fetch that fails: the call succeeds when none fails, and else fails with the error of
that fetch. -/
theorem getAllCategoriesAndQuestions_outcome (env : Env) (before : Board) :
    getAllCategoriesAndQuestions env before = getAllCategoriesAndQuestions env []
      ∧ (∀ b, (getAllCategoriesAndQuestions env before).1 = .ok b →
          (getAllCategoriesAndQuestions env before).2 = b)
      ∧ (getAllCategoriesAndQuestions env before).2.length ≤ CATEGORY_COUNT
      ∧ (∀ c ∈ (getAllCategoriesAndQuestions env before).2,
          1 ≤ c.clues.length ∧ c.clues.length ≤ QUESTION_COUNT)
      ∧ (∀ e, (getAllCategoriesAndQuestions env before).1 = .error e →
          (getAllCategoriesAndQuestions env before).2.length < CATEGORY_COUNT)
      ∧ (∀ cats b, env.categories (1 + env.offsetDraw % 499) = .ok cats →
          (getAllCategoriesAndQuestions env before).1 = .ok b →
          b.length = min CATEGORY_COUNT cats.length)
      ∧ (∀ cats, env.categories (1 + env.offsetDraw % 499) = .ok cats →
          CATEGORY_COUNT ≤ cats.length →
          (∀ c ∈ cats, ∃ data, env.clues c.id = .ok data ∧ QUESTION_COUNT ≤ data.length) →
          (getAllCategoriesAndQuestions env before).1
              = .ok (getAllCategoriesAndQuestions env before).2
            ∧ (getAllCategoriesAndQuestions env before).2.length = CATEGORY_COUNT
            ∧ ∀ c ∈ (getAllCategoriesAndQuestions env before).2,
                c.clues.length = QUESTION_COUNT)
      ∧ (∀ e, getCategoryIds env = .error e →
          getAllCategoriesAndQuestions env before = (.error e, []))
      ∧ (∀ ids, getCategoryIds env = .ok ids →
          (∀ (k : Nat) (cat : Category),
              (getAllCategoriesAndQuestions env before).2[k]? = some cat →
              ∃ id, ids[k]? = some id ∧ getCategory env (env.clueDraws k) id = .ok cat)
            ∧ (((getAllCategoriesAndQuestions env before).1
                    = .ok (getAllCategoriesAndQuestions env before).2
                  ∧ (getAllCategoriesAndQuestions env before).2.length = ids.length)
                ∨ ∃ id e,
                    ids[(getAllCategoriesAndQuestions env before).2.length]? = some id
                      ∧ getCategory env
                          (env.clueDraws (getAllCategoriesAndQuestions env before).2.length) id
                          = .error e
                      ∧ (getAllCategoriesAndQuestions env before).1 = .error e)) := by
  obtain ⟨a1, a2, a3, a4, a5, a6, a7⟩ := load_outcome_sizes env before
  refine ⟨a1, a2, a3, a4, a5, a6, a7, ?_, ?_⟩
  · intro e he
    simp [getAllCategoriesAndQuestions, he]
  · intro ids hids
    obtain ⟨fetched, h2, hall, hres⟩ := fetchLoop_exact env ids 0 []
    rcases hfl : fetchLoop env 0 ids [] with ⟨r, after⟩
    rw [hfl] at h2 hres
    simp only [List.nil_append] at h2
    subst h2
    have hall2 : ∀ (k : Nat) (cat : Category), after[k]? = some cat →
        ∃ id, ids[k]? = some id ∧ getCategory env (env.clueDraws k) id = .ok cat := by
      intro k cat h
      obtain ⟨id, e1, e2⟩ := hall k cat h
      exact ⟨id, e1, by simpa using e2⟩
    rcases hres with ⟨h1, hl⟩ | ⟨id, e, e1, e2, e3⟩
    · simp only at h1
      subst h1
      have hout : getAllCategoriesAndQuestions env before = (.ok after, after) := by
        simp [getAllCategoriesAndQuestions, hids, hfl]
      rw [hout]
      exact ⟨hall2, Or.inl ⟨rfl, hl⟩⟩
    · simp only at e3
      subst e3
      have hout : getAllCategoriesAndQuestions env before = (.error e, after) := by
        simp [getAllCategoriesAndQuestions, hids, hfl]
      rw [hout]
      exact ⟨hall2, Or.inr ⟨id, e, e1, by simpa using e2, rfl⟩⟩

/-- C4, amended, at a world with six listed categories of five raw clues each, where the call
returns a board of 6 categories with 5 clues each, and at the world `brokenEnv`, where the
third fetch is rejected and the board left behind holds the two categories fetched before. -/
theorem getAllCategoriesAndQuestions_outcome_witness :
    ((getAllCategoriesAndQuestions fullEnv oldBoard).1
        = .ok (getAllCategoriesAndQuestions fullEnv oldBoard).2
      ∧ (getAllCategoriesAndQuestions fullEnv oldBoard).2.length = CATEGORY_COUNT
      ∧ ∀ c ∈ (getAllCategoriesAndQuestions fullEnv oldBoard).2,
          c.clues.length = QUESTION_COUNT)
      ∧ ((∀ (k : Nat) (cat : Category),
              (getAllCategoriesAndQuestions brokenEnv oldBoard).2[k]? = some cat →
              ∃ id, [1, 2, 3, 4, 5, 6][k]? = some id
                ∧ getCategory brokenEnv (brokenEnv.clueDraws k) id = .ok cat)
          ∧ (((getAllCategoriesAndQuestions brokenEnv oldBoard).1
                  = .ok (getAllCategoriesAndQuestions brokenEnv oldBoard).2
                ∧ (getAllCategoriesAndQuestions brokenEnv oldBoard).2.length
                    = [1, 2, 3, 4, 5, 6].length)
              ∨ ∃ id e,
                  [1, 2, 3, 4, 5, 6][(getAllCategoriesAndQuestions brokenEnv oldBoard).2.length]?
                      = some id
                    ∧ getCategory brokenEnv
                        (brokenEnv.clueDraws
                          (getAllCategoriesAndQuestions brokenEnv oldBoard).2.length) id
                        = .error e
                    ∧ (getAllCategoriesAndQuestions brokenEnv oldBoard).1 = .error e)) :=
  ⟨(getAllCategoriesAndQuestions_outcome fullEnv oldBoard).2.2.2.2.2.2.1
      [⟨1⟩, ⟨2⟩, ⟨3⟩, ⟨4⟩, ⟨5⟩, ⟨6⟩] rfl (by decide)
      (fun _ _ => ⟨[hamletClue, plathClue, hamletClue, plathClue, hamletClue], rfl, by decide⟩),
   (getAllCategoriesAndQuestions_outcome brokenEnv oldBoard).2.2.2.2.2.2.2.2
      [1, 2, 3, 4, 5, 6] rfl⟩

/-! ## Element selection -/

theorem replaceFirst_find {α : Type} (f : α → Option α) (els : α → List Elem)
    (q : Elem → Bool) (g : Elem → Elem)
    (hnone : ∀ a, f a = none → (els a).find? q = none)
    (hsome : ∀ a b, f a = some b →
      (els a).find? q ≠ none ∧ (els b).find? q = ((els a).find? q).map g) :
    ∀ l : List α,
      (replaceFirst f l = none → ((l.map els).flatten).find? q = none)
        ∧ ∀ l2, replaceFirst f l = some l2 →
            ((l.map els).flatten).find? q ≠ none
              ∧ ((l2.map els).flatten).find? q = (((l.map els).flatten).find? q).map g := by
  intro l
  induction l with
  | nil => simp [replaceFirst]
  | cons a as ih =>
    cases hf : f a with
    | some b =>
      obtain ⟨h1, h2⟩ := hsome a b hf
      obtain ⟨e, he⟩ := Option.ne_none_iff_exists'.mp h1
      simp [replaceFirst, hf, h2, he]
    | none =>
      have h0 := hnone a hf
      cases hr : replaceFirst f as with
      | none => simp [replaceFirst, hf, hr, h0, ih.1 hr]
      | some bs =>
        obtain ⟨h1, h2⟩ := ih.2 bs hr
        obtain ⟨e, he⟩ := Option.ne_none_iff_exists'.mp h1
        simp [replaceFirst, hf, hr, h0, he] at h2 ⊢
        simpa using h2

theorem onId_find (id : JSString) (g : Elem → Elem) (hg : ∀ e, (g e).id = e.id) :
    (∀ a, Elem.onId id g a = none → [a].find? (fun e => e.id = id) = none)
      ∧ ∀ a b, Elem.onId id g a = some b →
          [a].find? (fun e => e.id = id) ≠ none
            ∧ [b].find? (fun e => e.id = id) = ([a].find? (fun e => e.id = id)).map g := by
  constructor
  · intro a h
    by_cases ha : a.id = id <;> simp_all [Elem.onId]
  · intro a b h
    by_cases ha : a.id = id
    · simp only [Elem.onId, ha, if_true, Option.some.injEq] at h
      subst h
      simp [ha, hg]
    · simp [Elem.onId, ha] at h

theorem row_find (id : JSString) (g : Elem → Elem) (hg : ∀ e, (g e).id = e.id)
    (row : List Elem) :
    (replaceFirst (Elem.onId id g) row = none → row.find? (fun e => e.id = id) = none)
      ∧ ∀ row2, replaceFirst (Elem.onId id g) row = some row2 →
          row.find? (fun e => e.id = id) ≠ none
            ∧ row2.find? (fun e => e.id = id) = (row.find? (fun e => e.id = id)).map g := by
  have h := replaceFirst_find (Elem.onId id g) (fun e => [e]) (fun e => e.id = id) g
    (onId_find id g hg).1 (onId_find id g hg).2 row
  have hflat : ∀ l : List Elem, (l.map (fun e => [e])).flatten = l := by
    intro l; induction l with
    | nil => rfl
    | cons a as ih => simp [ih]
  simpa only [hflat] using h

theorem rows_find (id : JSString) (g : Elem → Elem) (hg : ∀ e, (g e).id = e.id)
    (rows : List (List Elem)) :
    (replaceFirst (replaceFirst (Elem.onId id g)) rows = none →
        rows.flatten.find? (fun e => e.id = id) = none)
      ∧ ∀ rows2, replaceFirst (replaceFirst (Elem.onId id g)) rows = some rows2 →
          rows.flatten.find? (fun e => e.id = id) ≠ none
            ∧ rows2.flatten.find? (fun e => e.id = id)
                = (rows.flatten.find? (fun e => e.id = id)).map g := by
  have h := replaceFirst_find (replaceFirst (Elem.onId id g)) (fun r => r)
    (fun e => e.id = id) g (fun a => (row_find id g hg a).1) (fun a => (row_find id g hg a).2)
    rows
  simpa only [List.map_id'] using h

theorem table_find (id : JSString) (g : Elem → Elem) (hg : ∀ e, (g e).id = e.id)
    (t : Table) :
    (Table.update id g t = none → t.elems.find? (fun e => e.id = id) = none)
      ∧ ∀ t2, Table.update id g t = some t2 →
          t.elems.find? (fun e => e.id = id) ≠ none
            ∧ t2.elems.find? (fun e => e.id = id)
                = (t.elems.find? (fun e => e.id = id)).map g := by
  unfold Table.update Table.elems
  cases hh : replaceFirst (Elem.onId id g) t.head with
  | some head =>
    obtain ⟨h1, h2⟩ := (row_find id g hg t.head).2 head hh
    obtain ⟨e, he⟩ := Option.ne_none_iff_exists'.mp h1
    simp [h2, he]
  | none =>
    have h0 := (row_find id g hg t.head).1 hh
    cases hb : replaceFirst (replaceFirst (Elem.onId id g)) t.body with
    | none =>
      have hb0 := (rows_find id g hg t.body).1 hb
      simp only [List.find?_append, h0, hb0]
      simp
    | some body =>
      obtain ⟨h1, h2⟩ := (rows_find id g hg t.body).2 body hb
      simp only [List.find?_append, h0, Option.none_or]
      refine ⟨(fun h => nomatch h), ?_⟩
      intro t2 ht2
      injection ht2 with ht2
      subst ht2
      refine ⟨h1, ?_⟩
      show (t.head.find? (fun e => decide (e.id = id))).or
        (body.flatten.find? (fun e => decide (e.id = id))) = _
      rw [h0, Option.none_or]
      exact h2

theorem node_find (id : JSString) (g : Elem → Elem) (hg : ∀ e, (g e).id = e.id) :
    (∀ n, Node.update id g n = none → n.elems.find? (fun e => e.id = id) = none)
      ∧ ∀ n n2, Node.update id g n = some n2 →
          n.elems.find? (fun e => e.id = id) ≠ none
            ∧ n2.elems.find? (fun e => e.id = id)
                = (n.elems.find? (fun e => e.id = id)).map g := by
  constructor
  · intro n h
    cases n with
    | spinner => rfl
    | table t =>
      cases ht : Table.update id g t with
      | none => exact (table_find id g hg t).1 ht
      | some t2 => simp [Node.update, ht] at h
  · intro n n2 h
    cases n with
    | spinner => simp [Node.update] at h
    | table t =>
      cases ht : Table.update id g t with
      | none => simp [Node.update, ht] at h
      | some t2 =>
        simp only [Node.update, ht, Option.map_some', Option.some.injEq] at h
        subst h
        exact (table_find id g hg t).2 t2 ht

/-- After a setter on `$("#" + id)` that keeps ids, the selected element is the old one
changed by the setter. -/
theorem findById_updateById (id : JSString) (g : Elem → Elem) (hg : ∀ e, (g e).id = e.id)
    (view : List Node) :
    findById id (updateById id g view) = (findById id view).map g := by
  have h := replaceFirst_find (Node.update id g) Node.elems (fun e => e.id = id) g
    (node_find id g hg).1 (node_find id g hg).2 view
  unfold findById updateById
  cases hr : replaceFirst (Node.update id g) view with
  | none =>
    have h0 := h.1 hr
    simp only [Option.getD_none, h0, Option.map_none']
  | some view2 =>
    simp only [Option.getD_some]
    exact (h.2 view2 hr).2

/-! ## The click handler -/

theorem getProp_element {α : Type} (named : JSString → Bool) (array : List α)
    (key : JSString) (n : Nat) (a : α) :
    getProp named array key = .element n a ↔ arrayIndex key = some n ∧ array[n]? = some a := by
  unfold getProp
  cases hk : arrayIndex key with
  | none => by_cases hn : named key <;> simp [hn]
  | some m =>
    cases ha : array[m]? with
    | none =>
      simp only [ha, Option.some.injEq]
      constructor
      · intro h; cases h
      · rintro ⟨rfl, h2⟩; rw [ha] at h2; cases h2
    | some b =>
      simp only [ha, Lookup.element.injEq, Option.some.injEq]
      constructor
      · rintro ⟨rfl, rfl⟩; exact ⟨rfl, ha⟩
      · rintro ⟨rfl, h2⟩; rw [ha] at h2; injection h2 with h2; exact ⟨rfl, h2⟩

theorem getProp_set {α : Type} (named : JSString → Bool) (array : List α)
    (key : JSString) (n : Nat) (a b : α) (h : getProp named array key = .element n a) :
    getProp named (array.set n b) key = .element n b := by
  obtain ⟨hk, ha⟩ := (getProp_element named array key n a).mp h
  refine (getProp_element named _ key n b).mpr ⟨hk, ?_⟩
  have hlt : n < array.length := by
    rcases Nat.lt_or_ge n array.length with h1 | h1
    · exact h1
    · rw [List.getElem?_eq_none h1] at ha; cases ha
  exact List.getElem?_set_self hlt

theorem select_plain (eng : Engine) (id : JSString) (h : isPlainId id = true) :
    select eng id = some (updateById id) := by
  simp [select, h]

/-- What a click does, read off the selection, the two property reads and the state of the
clue. -/
theorem showQuestionOrAnswer_element (eng : Engine) (id : JSString) (p : Page)
    (setter : Setter) (ci qi : Nat) (cat : Category) (c : Clue)
    (hsel : select eng id = some setter)
    (hcat : getProp eng.named p.categories (slice id 0 1) = .element ci cat)
    (hclue : getProp eng.named cat.clues (sliceFrom id 2) = .element qi c) :
    showQuestionOrAnswer eng id p =
      match c.showing with
      | .null =>
        (.ok (),
          { p with
            view := setter (fun e => { e with content := .text c.question }) p.view
            categories := p.categories.set ci
              { cat with clues := cat.clues.set qi { c with showing := .question } } })
      | .question =>
        (.ok (),
          { p with
            view := setter
              (fun e => { e with
                answer := !e.answer, content := .text c.answer, notAllowed := !e.notAllowed })
              p.view
            categories := p.categories.set ci
              { cat with clues := cat.clues.set qi { c with showing := .answer } } })
      | .answer => (.ok (), p) := by
  simp only [showQuestionOrAnswer, hsel, hcat, hclue]

theorem cellClue_eq_some (named : JSString → Bool) (id : JSString) (b : Board) (c : Clue) :
    cellClue named id b = some c ↔
      ∃ ci qi cat, getProp named b (slice id 0 1) = .element ci cat
        ∧ getProp named cat.clues (sliceFrom id 2) = .element qi c := by
  unfold cellClue
  cases h1 : getProp named b (slice id 0 1) with
  | undefined => simp
  | other => simp
  | element ci cat =>
    cases h2 : getProp named cat.clues (sliceFrom id 2) with
    | undefined => simp [h2]
    | other => simp [h2]
    | element qi c2 =>
      simp only [h2, Option.some.injEq, Lookup.element.injEq]
      constructor
      · rintro rfl; exact ⟨ci, qi, cat, ⟨rfl, rfl⟩, h2⟩
      · rintro ⟨ci2, qi2, cat2, ⟨rfl, rfl⟩, h3⟩
        rw [h2] at h3; injection h3

theorem click_null (eng : Engine) (id : JSString) (p : Page) (setter : Setter)
    (ci qi : Nat) (cat : Category) (c : Clue)
    (hsel : select eng id = some setter)
    (hcat : getProp eng.named p.categories (slice id 0 1) = .element ci cat)
    (hclue : getProp eng.named cat.clues (sliceFrom id 2) = .element qi c)
    (hs : c.showing = .null) :
    ∃ p2, showQuestionOrAnswer eng id p = (.ok (), p2)
      ∧ p2.view = setter (fun e => { e with content := .text c.question }) p.view
      ∧ getProp eng.named p2.categories (slice id 0 1)
          = .element ci { cat with clues := cat.clues.set qi { c with showing := .question } }
      ∧ getProp eng.named (cat.clues.set qi { c with showing := .question }) (sliceFrom id 2)
          = .element qi { c with showing := .question } := by
  refine ⟨_, by rw [showQuestionOrAnswer_element eng id p setter ci qi cat c hsel hcat hclue,
    hs], rfl, ?_, ?_⟩
  · exact getProp_set eng.named p.categories _ ci cat _ hcat
  · exact getProp_set eng.named cat.clues _ qi c _ hclue

theorem click_question (eng : Engine) (id : JSString) (p : Page) (setter : Setter)
    (ci qi : Nat) (cat : Category) (c : Clue)
    (hsel : select eng id = some setter)
    (hcat : getProp eng.named p.categories (slice id 0 1) = .element ci cat)
    (hclue : getProp eng.named cat.clues (sliceFrom id 2) = .element qi c)
    (hs : c.showing = .question) :
    ∃ p2, showQuestionOrAnswer eng id p = (.ok (), p2)
      ∧ p2.view = setter
          (fun e => { e with
            answer := !e.answer, content := .text c.answer, notAllowed := !e.notAllowed })
          p.view
      ∧ getProp eng.named p2.categories (slice id 0 1)
          = .element ci { cat with clues := cat.clues.set qi { c with showing := .answer } }
      ∧ getProp eng.named (cat.clues.set qi { c with showing := .answer }) (sliceFrom id 2)
          = .element qi { c with showing := .answer } := by
  refine ⟨_, by rw [showQuestionOrAnswer_element eng id p setter ci qi cat c hsel hcat hclue,
    hs], rfl, ?_, ?_⟩
  · exact getProp_set eng.named p.categories _ ci cat _ hcat
  · exact getProp_set eng.named cat.clues _ qi c _ hclue

theorem click_answer (eng : Engine) (id : JSString) (p : Page) (setter : Setter)
    (ci qi : Nat) (cat : Category) (c : Clue)
    (hsel : select eng id = some setter)
    (hcat : getProp eng.named p.categories (slice id 0 1) = .element ci cat)
    (hclue : getProp eng.named cat.clues (sliceFrom id 2) = .element qi c)
    (hs : c.showing = .answer) :
    showQuestionOrAnswer eng id p = (.ok (), p) := by
  rw [showQuestionOrAnswer_element eng id p setter ci qi cat c hsel hcat hclue, hs]

/-- C1: for a cell that is in the page under an id of word characters and hyphens (as every
cell built by `fillTable` is) and whose clue exists, a click on a hidden clue puts the
question in the cell and sets the state to `question`; a click in state `question` puts the
answer in the cell and sets the state to `answer`; a click in state `answer` changes nothing;
so after two clicks on a hidden clue the cell shows the answer in state `answer`, and the
third click returns the page unchanged. No click raises an error. -/
theorem showQuestionOrAnswer_reveal (eng : Engine) (id : JSString) (p : Page)
    (c : Clue) (cell : Elem)
    (hplain : isPlainId id = true)
    (hclue : cellClue eng.named id p.categories = some c)
    (hcell : findById id p.view = some cell) :
    (c.showing = .null →
        (showQuestionOrAnswer eng id p).1 = .ok ()
          ∧ findById id (showQuestionOrAnswer eng id p).2.view
              = some { cell with content := .text c.question }
          ∧ cellClue eng.named id (showQuestionOrAnswer eng id p).2.categories
              = some { c with showing := .question })
      ∧ (c.showing = .question →
        (showQuestionOrAnswer eng id p).1 = .ok ()
          ∧ findById id (showQuestionOrAnswer eng id p).2.view
              = some { cell with
                  answer := !cell.answer, content := .text c.answer,
                  notAllowed := !cell.notAllowed }
          ∧ cellClue eng.named id (showQuestionOrAnswer eng id p).2.categories
              = some { c with showing := .answer })
      ∧ (c.showing = .answer → showQuestionOrAnswer eng id p = (.ok (), p))
      ∧ (c.showing = .null →
        (showQuestionOrAnswer eng id (showQuestionOrAnswer eng id p).2).1 = .ok ()
          ∧ findById id
              (showQuestionOrAnswer eng id (showQuestionOrAnswer eng id p).2).2.view
              = some { cell with
                  answer := !cell.answer, content := .text c.answer,
                  notAllowed := !cell.notAllowed }
          ∧ cellClue eng.named id
              (showQuestionOrAnswer eng id (showQuestionOrAnswer eng id p).2).2.categories
              = some { c with showing := .answer }
          ∧ showQuestionOrAnswer eng id
              (showQuestionOrAnswer eng id (showQuestionOrAnswer eng id p).2).2
              = (.ok (), (showQuestionOrAnswer eng id (showQuestionOrAnswer eng id p).2).2))
    := by
  have hsel := select_plain eng id hplain
  obtain ⟨ci, qi, cat, hcat, hcl⟩ := (cellClue_eq_some eng.named id p.categories c).mp hclue
  have first : c.showing = .null → ∃ p1, showQuestionOrAnswer eng id p = (.ok (), p1)
      ∧ findById id p1.view = some { cell with content := .text c.question }
      ∧ getProp eng.named p1.categories (slice id 0 1)
          = .element ci { cat with clues := cat.clues.set qi { c with showing := .question } }
      ∧ getProp eng.named (cat.clues.set qi { c with showing := .question }) (sliceFrom id 2)
          = .element qi { c with showing := .question } := by
    intro hs
    obtain ⟨p1, h1, hv, hc1, hc2⟩ := click_null eng id p _ ci qi cat c hsel hcat hcl hs
    refine ⟨p1, h1, ?_, hc1, hc2⟩
    rw [hv, findById_updateById id _ (by intro e; rfl), hcell]
    rfl
  refine ⟨?_, ?_, ?_, ?_⟩
  · intro hs
    obtain ⟨p1, h1, hv, hc1, hc2⟩ := first hs
    rw [h1]
    exact ⟨rfl, hv, (cellClue_eq_some eng.named id _ _).mpr ⟨ci, qi, _, hc1, hc2⟩⟩
  · intro hs
    obtain ⟨p1, h1, hv, hc1, hc2⟩ := click_question eng id p _ ci qi cat c hsel hcat hcl hs
    rw [h1]
    refine ⟨rfl, ?_, (cellClue_eq_some eng.named id _ _).mpr ⟨ci, qi, _, hc1, hc2⟩⟩
    show findById id p1.view = _
    rw [hv, findById_updateById id _ (by intro e; rfl), hcell]
    rfl
  · exact click_answer eng id p _ ci qi cat c hsel hcat hcl
  · intro hs
    obtain ⟨p1, h1, hv1, hc1, hc2⟩ := first hs
    obtain ⟨p2, h2, hv2, hd1, hd2⟩ :=
      click_question eng id p1 _ ci qi _ { c with showing := .question } hsel hc1 hc2 rfl
    have hd1b : getProp eng.named p2.categories (slice id 0 1)
        = .element ci { cat with clues := cat.clues.set qi { c with showing := .answer } } := by
      rw [hd1]; simp
    have hd2b : getProp eng.named (cat.clues.set qi { c with showing := .answer })
        (sliceFrom id 2) = .element qi { c with showing := .answer } := by
      simpa using hd2
    rw [h1]
    simp only
    rw [h2]
    simp only
    refine ⟨trivial, ?_, (cellClue_eq_some eng.named id _ _).mpr ⟨ci, qi, _, hd1b, hd2b⟩, ?_⟩
    · rw [hv2, findById_updateById id _ (by intro e; rfl), hv1]
      rfl
    · exact click_answer eng id p2 _ ci qi _ _ hsel hd1b hd2b rfl

/-- C1, on the ready page: a click on the cell of column 0, row 0 shows the question
`Hamlet Author` and sets the state to `question`. -/
theorem showQuestionOrAnswer_reveal_witness :
    (showQuestionOrAnswer lengthOnly (cellId 0 0) readyPage).1 = .ok ()
      ∧ findById (cellId 0 0) (showQuestionOrAnswer lengthOnly (cellId 0 0) readyPage).2.view
          = some { tag := .td, id := cellId 0 0, content := .text (str "Hamlet Author"),
                   answer := false, notAllowed := false }
      ∧ cellClue lengthOnly.named (cellId 0 0)
            (showQuestionOrAnswer lengthOnly (cellId 0 0) readyPage).2.categories
          = some { question := str "Hamlet Author", answer := str "Shakespeare",
                   showing := .question } :=
  (showQuestionOrAnswer_reveal lengthOnly (cellId 0 0) readyPage
    { question := str "Hamlet Author", answer := str "Shakespeare", showing := .null }
    { tag := .td, id := cellId 0 0, content := .glyph, answer := false, notAllowed := false }
    (by decide) (by decide) (by decide)).1 rfl

theorem set_same {α : Type} (l : List α) (i : Nat) (a : α) (h : l[i]? = some a) :
    l.set i a = l := by
  apply List.ext_getElem?
  intro n
  rw [List.getElem?_set]
  by_cases hn : i = n
  · subst hn
    have hlt : i < l.length := by
      rcases Nat.lt_or_ge i l.length with h1 | h1
      · exact h1
      · rw [List.getElem?_eq_none h1] at h; cases h
    simp [hlt, h]
  · simp [hn]

theorem lt_of_getElem? {α : Type} (l : List α) (i : Nat) (a : α) (h : l[i]? = some a) :
    i < l.length := by
  rcases Nat.lt_or_ge i l.length with h1 | h1
  · exact h1
  · rw [List.getElem?_eq_none h1] at h; cases h

theorem clueAt_set (b : Board) (ci qi : Nat) (cat : Category) (c c2 : Clue)
    (hb : b[ci]? = some cat) (hc : cat.clues[qi]? = some c) (i j : Nat) :
    clueAt (b.set ci { cat with clues := cat.clues.set qi c2 }) i j
      = if i = ci ∧ j = qi then some c2 else clueAt b i j := by
  have hci := lt_of_getElem? b ci cat hb
  have hqi := lt_of_getElem? cat.clues qi c hc
  unfold clueAt
  by_cases hi : i = ci
  · subst hi
    rw [List.getElem?_set_self hci, hb]
    simp only [Option.some_bind]
    by_cases hj : j = qi
    · subst hj
      simp [List.getElem?_set_self hqi]
    · have hj2 : qi ≠ j := fun h => hj h.symm
      simp [hj, List.getElem?_set_ne hj2]
  · have hi2 : ci ≠ i := fun h => hi h.symm
    simp [hi, List.getElem?_set_ne hi2]

/-- The board after a click: unchanged, or changed in the `showing` of the one clue that the
id decodes to. The button is never touched. -/
theorem click_board (eng : Engine) (id : JSString) (p : Page) :
    (showQuestionOrAnswer eng id p).2.button = p.button
      ∧ ((showQuestionOrAnswer eng id p).2.categories = p.categories
        ∨ ∃ ci qi cat c s, arrayIndex (slice id 0 1) = some ci
            ∧ arrayIndex (sliceFrom id 2) = some qi
            ∧ p.categories[ci]? = some cat ∧ cat.clues[qi]? = some c
            ∧ (showQuestionOrAnswer eng id p).2.categories
                = p.categories.set ci
                    { cat with clues := cat.clues.set qi { c with showing := s } }) := by
  cases hsel : select eng id with
  | none => simp [showQuestionOrAnswer, hsel]
  | some setter =>
    cases hcat : getProp eng.named p.categories (slice id 0 1) with
    | undefined => simp [showQuestionOrAnswer, hsel, hcat]
    | other => simp [showQuestionOrAnswer, hsel, hcat]
    | element ci cat =>
      cases hclue : getProp eng.named cat.clues (sliceFrom id 2) with
      | undefined => simp [showQuestionOrAnswer, hsel, hcat, hclue]
      | other => simp [showQuestionOrAnswer, hsel, hcat, hclue]
      | element qi c =>
        obtain ⟨k1, k2⟩ := (getProp_element eng.named _ _ ci cat).mp hcat
        obtain ⟨k3, k4⟩ := (getProp_element eng.named _ _ qi c).mp hclue
        rw [showQuestionOrAnswer_element eng id p setter ci qi cat c hsel hcat hclue]
        cases hs : c.showing with
        | null => exact ⟨rfl, Or.inr ⟨ci, qi, cat, c, .question, k1, k3, k2, k4, rfl⟩⟩
        | question => exact ⟨rfl, Or.inr ⟨ci, qi, cat, c, .answer, k1, k3, k2, k4, rfl⟩⟩
        | answer => exact ⟨rfl, Or.inl rfl⟩

/-- C9: a click keeps the number of categories, every title, every clue count, every
question and answer text, and the button; the clue at `(i, j)` is the same after the click
unless `(i, j)` is the coordinate the id decodes to. -/
theorem showQuestionOrAnswer_frame (eng : Engine) (id : JSString) (p : Page) :
    (showQuestionOrAnswer eng id p).2.categories.length = p.categories.length
      ∧ (showQuestionOrAnswer eng id p).2.categories.map (fun cat => cat.title)
          = p.categories.map (fun cat => cat.title)
      ∧ (showQuestionOrAnswer eng id p).2.categories.map (fun cat => cat.clues.length)
          = p.categories.map (fun cat => cat.clues.length)
      ∧ (∀ i j,
          (clueAt (showQuestionOrAnswer eng id p).2.categories i j).map (fun c => c.question)
              = (clueAt p.categories i j).map (fun c => c.question)
            ∧ (clueAt (showQuestionOrAnswer eng id p).2.categories i j).map
                (fun c => c.answer)
              = (clueAt p.categories i j).map (fun c => c.answer)
            ∧ (clueAt (showQuestionOrAnswer eng id p).2.categories i j
                  = clueAt p.categories i j
                ∨ (arrayIndex (slice id 0 1) = some i
                    ∧ arrayIndex (sliceFrom id 2) = some j)))
      ∧ (showQuestionOrAnswer eng id p).2.button = p.button := by
  obtain ⟨hbtn, hsame | ⟨ci, qi, cat, c, s, k1, k2, k3, k4, hset⟩⟩ := click_board eng id p
  · rw [hsame]
    exact ⟨rfl, rfl, rfl, fun i j => ⟨rfl, rfl, Or.inl rfl⟩, hbtn⟩
  · rw [hset]
    refine ⟨by simp, ?_, ?_, ?_, hbtn⟩
    · rw [List.map_set]
      exact set_same _ _ _ (by simp [List.getElem?_map, k3])
    · rw [List.map_set]
      exact set_same _ _ _ (by simp [List.getElem?_map, k3])
    · intro i j
      rw [clueAt_set p.categories ci qi cat c _ k3 k4 i j]
      by_cases h : i = ci ∧ j = qi
      · obtain ⟨rfl, rfl⟩ := h
        have hc : clueAt p.categories i j = some c := by simp [clueAt, k3, k4]
        rw [if_pos ⟨rfl, rfl⟩, hc]
        exact ⟨rfl, rfl, Or.inr ⟨k1, k2⟩⟩
      · rw [if_neg h]
        exact ⟨rfl, rfl, Or.inl rfl⟩

theorem getProp_other {α : Type} (named : JSString → Bool) (array : List α)
    (key : JSString) :
    getProp named array key = .other ↔ arrayIndex key = none ∧ named key = true := by
  unfold getProp
  cases hk : arrayIndex key with
  | none => by_cases hn : named key <;> simp [hn]
  | some m =>
    cases ha : array[m]? with
    | none => simp [ha]
    | some b => simp [ha]

/-- C5, as stated, fails: on the ready page neither the empty id nor the id `0-9` of a row
that does not exist has a backing clue, and the handler throws on both: jQuery rejects the
selector `#`, and `clues["9"]` is `undefined`, so reading its `question` is a `TypeError`. -/
theorem showQuestionOrAnswer_empty_id_throws :
    cellClue lengthOnly.named (str "") readyPage.categories = none
      ∧ (showQuestionOrAnswer lengthOnly (str "") readyPage).1 = .error .syntaxError
      ∧ cellClue lengthOnly.named (str "0-9") readyPage.categories = none
      ∧ (showQuestionOrAnswer lengthOnly (str "0-9") readyPage).1 = .error .typeError :=
  ⟨by decide, by rfl, by decide, by rfl⟩

theorem click_no_clue (eng : Engine) (id : JSString) (p : Page)
    (h : cellClue eng.named id p.categories = none) :
    ((showQuestionOrAnswer eng id p = (.error .syntaxError, p) ∧ select eng id = none
          ∨ showQuestionOrAnswer eng id p = (.error .typeError, p))
        ∧ ¬ ((select eng id).isSome = true
            ∧ ∃ ci cat, arrayIndex (slice id 0 1) = some ci ∧ p.categories[ci]? = some cat
              ∧ arrayIndex (sliceFrom id 2) = none ∧ eng.named (sliceFrom id 2) = true))
      ∨ (showQuestionOrAnswer eng id p = (.ok (), p)
        ∧ (select eng id).isSome = true
        ∧ ∃ ci cat, arrayIndex (slice id 0 1) = some ci ∧ p.categories[ci]? = some cat
            ∧ arrayIndex (sliceFrom id 2) = none ∧ eng.named (sliceFrom id 2) = true) := by
  cases hsel : select eng id with
  | none =>
    left
    refine ⟨Or.inl ⟨by simp only [showQuestionOrAnswer, hsel], rfl⟩, ?_⟩
    rintro ⟨hh, _⟩
    cases hh
  | some setter =>
    cases hcat : getProp eng.named p.categories (slice id 0 1) with
    | undefined =>
      left
      refine ⟨Or.inr (by simp only [showQuestionOrAnswer, hsel, hcat]), ?_⟩
      rintro ⟨_, ci, cat, k1, k2, _, _⟩
      have := (getProp_element eng.named p.categories _ ci cat).mpr ⟨k1, k2⟩
      rw [hcat] at this; cases this
    | other =>
      left
      refine ⟨Or.inr (by simp only [showQuestionOrAnswer, hsel, hcat]), ?_⟩
      rintro ⟨_, ci, cat, k1, k2, _, _⟩
      have := (getProp_element eng.named p.categories _ ci cat).mpr ⟨k1, k2⟩
      rw [hcat] at this; cases this
    | element ci cat =>
      obtain ⟨k1, k2⟩ := (getProp_element eng.named _ _ ci cat).mp hcat
      cases hclue : getProp eng.named cat.clues (sliceFrom id 2) with
      | undefined =>
        left
        refine ⟨Or.inr (by simp only [showQuestionOrAnswer, hsel, hcat, hclue]), ?_⟩
        rintro ⟨_, ci2, cat2, j1, j2, j3, j4⟩
        rw [k1] at j1; injection j1 with j1; subst j1
        rw [k2] at j2; injection j2 with j2; subst j2
        have := (getProp_other eng.named cat.clues _).mpr ⟨j3, j4⟩
        rw [hclue] at this; cases this
      | other =>
        obtain ⟨k3, k4⟩ := (getProp_other eng.named _ _).mp hclue
        right
        exact ⟨by simp only [showQuestionOrAnswer, hsel, hcat, hclue], rfl,
          ci, cat, k1, k2, k3, k4⟩
      | element qi c =>
        have := (cellClue_eq_some eng.named id p.categories c).mpr ⟨ci, qi, cat, hcat, hclue⟩
        rw [h] at this; cases this

theorem cellClue_empty (named : JSString → Bool) (b : Board) :
    cellClue named (str "") b = none := by
  have hk : arrayIndex (slice (str "") 0 1) = none := by decide
  unfold cellClue getProp
  simp only [hk]
  by_cases hn : named (slice (str "") 0 1) <;> simp [hn]

theorem click_no_clue_outcome (eng : Engine) (id : JSString) (p : Page)
    (h : cellClue eng.named id p.categories = none) :
    (showQuestionOrAnswer eng id p).2 = p
      ∧ ((showQuestionOrAnswer eng id p).1 = .ok () ↔
          (select eng id).isSome = true
            ∧ ∃ ci cat, arrayIndex (slice id 0 1) = some ci ∧ p.categories[ci]? = some cat
              ∧ arrayIndex (sliceFrom id 2) = none ∧ eng.named (sliceFrom id 2) = true)
      ∧ ((showQuestionOrAnswer eng id p).1 = .ok ()
          ∨ (showQuestionOrAnswer eng id p).1 = .error .syntaxError
          ∨ (showQuestionOrAnswer eng id p).1 = .error .typeError)
      ∧ (isPlainId id = true → (arrayIndex (sliceFrom id 2)).isSome = true →
          (showQuestionOrAnswer eng id p).1 = .error .typeError)
      ∧ (showQuestionOrAnswer eng (str "") p).2 = p
      ∧ ((showQuestionOrAnswer eng (str "") p).1 = .error .syntaxError
          ∨ (showQuestionOrAnswer eng (str "") p).1 = .error .typeError) := by
  have hempty : (showQuestionOrAnswer eng (str "") p).2 = p
      ∧ ((showQuestionOrAnswer eng (str "") p).1 = .error .syntaxError
          ∨ (showQuestionOrAnswer eng (str "") p).1 = .error .typeError) := by
    rcases click_no_clue eng (str "") p (cellClue_empty eng.named p.categories) with
      ⟨⟨he, _⟩ | he, _⟩ | ⟨_, _, ci, cat, k1, _⟩
    · rw [he]; exact ⟨rfl, Or.inl rfl⟩
    · rw [he]; exact ⟨rfl, Or.inr rfl⟩
    · have hk : arrayIndex (slice (str "") 0 1) = none := by decide
      rw [hk] at k1; cases k1
  rcases click_no_clue eng id p h with ⟨⟨he, hsel⟩ | he, hn⟩ | ⟨he, hs⟩
  · rw [he]
    refine ⟨rfl, ⟨(fun hh => nomatch hh), (fun hh => absurd hh hn)⟩, Or.inr (Or.inl rfl), ?_,
      hempty⟩
    intro hplain _
    rw [select_plain eng id hplain] at hsel
    cases hsel
  · rw [he]
    exact ⟨rfl, ⟨(fun hh => nomatch hh), (fun hh => absurd hh hn)⟩, Or.inr (Or.inr rfl),
      (fun _ _ => rfl), hempty⟩
  · rw [he]
    refine ⟨rfl, ⟨(fun _ => hs), (fun _ => rfl)⟩, Or.inl rfl, ?_, hempty⟩
    intro _ hidx
    obtain ⟨_, ci, cat, _, _, k3, _⟩ := hs
    rw [k3] at hidx
    cases hidx


theorem select_empty (eng : Engine) : select eng (str "") = eng.css (str "#") := by
  have h : isPlainId (str "") = false := by decide
  simp only [select, h]
  rfl

/-- C5, amended: when the id decodes to no backing clue, the handler leaves the page (board,
cells and button) unchanged, and its outcome is fixed by three cases. When jQuery rejects the
selector it throws the syntax error of jQuery. When the selector is accepted, the first
character is the index of a category and the text from position 2 is not an index but names
another property of arrays (such as `length`), it ends without error. When the selector is
accepted and that is not so, it throws a `TypeError`: this is the case for every id of word
characters and hyphens whose category index is outside the board or whose text from position 2
is a number. The empty id always throws: the syntax error when jQuery rejects `#`, else a
`TypeError`. -/
theorem showQuestionOrAnswer_no_clue (eng : Engine) (id : JSString) (p : Page)
    (h : cellClue eng.named id p.categories = none) :
    (showQuestionOrAnswer eng id p).2 = p
      ∧ ((showQuestionOrAnswer eng id p).1 = .ok () ↔
          (select eng id).isSome = true
            ∧ ∃ ci cat, arrayIndex (slice id 0 1) = some ci ∧ p.categories[ci]? = some cat
              ∧ arrayIndex (sliceFrom id 2) = none ∧ eng.named (sliceFrom id 2) = true)
      ∧ ((showQuestionOrAnswer eng id p).1 = .ok ()
          ∨ (showQuestionOrAnswer eng id p).1 = .error .syntaxError
          ∨ (showQuestionOrAnswer eng id p).1 = .error .typeError)
      ∧ (isPlainId id = true → (arrayIndex (sliceFrom id 2)).isSome = true →
          (showQuestionOrAnswer eng id p).1 = .error .typeError)
      ∧ (showQuestionOrAnswer eng (str "") p).2 = p
      ∧ ((showQuestionOrAnswer eng (str "") p).1 = .error .syntaxError
          ∨ (showQuestionOrAnswer eng (str "") p).1 = .error .typeError)
      ∧ (select eng id = none →
          (showQuestionOrAnswer eng id p).1 = .error .syntaxError)
      ∧ ((select eng id).isSome = true →
          (∃ ci cat, arrayIndex (slice id 0 1) = some ci ∧ p.categories[ci]? = some cat
            ∧ arrayIndex (sliceFrom id 2) = none ∧ eng.named (sliceFrom id 2) = true) →
          (showQuestionOrAnswer eng id p).1 = .ok ())
      ∧ ((select eng id).isSome = true →
          (¬ ∃ ci cat, arrayIndex (slice id 0 1) = some ci ∧ p.categories[ci]? = some cat
            ∧ arrayIndex (sliceFrom id 2) = none ∧ eng.named (sliceFrom id 2) = true) →
          (showQuestionOrAnswer eng id p).1 = .error .typeError)
      ∧ (isPlainId id = true →
          (∀ ci, arrayIndex (slice id 0 1) = some ci → p.categories[ci]? = none) →
          (showQuestionOrAnswer eng id p).1 = .error .typeError)
      ∧ (eng.css (str "#") = none →
          (showQuestionOrAnswer eng (str "") p).1 = .error .syntaxError)
      ∧ ((eng.css (str "#")).isSome = true →
          (showQuestionOrAnswer eng (str "") p).1 = .error .typeError) := by
  obtain ⟨a1, a2, a3, a4, a5, a6⟩ := click_no_clue_outcome eng id p h
  have cases3 : ∀ (id2 : JSString), cellClue eng.named id2 p.categories = none →
      (select eng id2 = none → (showQuestionOrAnswer eng id2 p).1 = .error .syntaxError)
        ∧ ((select eng id2).isSome = true →
            (¬ ∃ ci cat, arrayIndex (slice id2 0 1) = some ci ∧ p.categories[ci]? = some cat
              ∧ arrayIndex (sliceFrom id2 2) = none ∧ eng.named (sliceFrom id2 2) = true) →
            (showQuestionOrAnswer eng id2 p).1 = .error .typeError) := by
    intro id2 h2
    rcases click_no_clue eng id2 p h2 with ⟨⟨he, hsel⟩ | he, _⟩ | ⟨he, hsome, hs⟩
    · rw [he]
      refine ⟨(fun _ => rfl), ?_⟩
      intro hh
      rw [hsel] at hh
      cases hh
    · rw [he]
      refine ⟨?_, (fun _ _ => rfl)⟩
      intro hnone
      cases hsel : select eng id2 with
      | none =>
        have : showQuestionOrAnswer eng id2 p = (.error .syntaxError, p) := by
          simp only [showQuestionOrAnswer, hsel]
        rw [he] at this
        cases this
      | some s => rw [hsel] at hnone; cases hnone
    · rw [he]
      refine ⟨?_, (fun _ hn => absurd hs hn)⟩
      intro hnone
      rw [hnone] at hsome
      cases hsome
  obtain ⟨b1, b2⟩ := cases3 id h
  obtain ⟨c1, c2⟩ := cases3 (str "") (cellClue_empty eng.named p.categories)
  have hk : arrayIndex (slice (str "") 0 1) = none := by decide
  refine ⟨a1, a2, a3, a4, a5, a6, b1, ?_, b2, ?_, ?_, ?_⟩
  · intro hsome hs
    exact a2.mpr ⟨hsome, hs⟩
  · intro hplain hout
    apply b2
    · rw [select_plain eng id hplain]; rfl
    · rintro ⟨ci, cat, k1, k2, _, _⟩
      rw [hout ci k1] at k2
      cases k2
  · intro hnone
    apply c1
    rw [select_empty, hnone]
  · intro hsome
    apply c2
    · rw [select_empty]; exact hsome
    · rintro ⟨ci, cat, k1, _⟩
      rw [hk] at k1
      cases k1

/-- C5, amended, on the ready page: at the id `0-9` (clue index outside the board) and at the
id `9-x` (category index outside the board) the page is unchanged and a `TypeError` is thrown;
at the empty id, with a jQuery that rejects `#`, the syntax error is thrown. -/
theorem showQuestionOrAnswer_no_clue_witness :
    (showQuestionOrAnswer lengthOnly (str "0-9") readyPage).2 = readyPage
      ∧ (showQuestionOrAnswer lengthOnly (str "0-9") readyPage).1 = .error .typeError
      ∧ (showQuestionOrAnswer lengthOnly (str "9-x") readyPage).2 = readyPage
      ∧ (showQuestionOrAnswer lengthOnly (str "9-x") readyPage).1 = .error .typeError
      ∧ (showQuestionOrAnswer lengthOnly (str "") readyPage).1 = .error .syntaxError :=
  ⟨(showQuestionOrAnswer_no_clue lengthOnly (str "0-9") readyPage (by decide)).1,
   (showQuestionOrAnswer_no_clue lengthOnly (str "0-9") readyPage (by decide)).2.2.2.1
     (by decide) (by decide),
   (showQuestionOrAnswer_no_clue lengthOnly (str "9-x") readyPage (by decide)).1,
   (showQuestionOrAnswer_no_clue lengthOnly (str "9-x") readyPage (by decide)).2.2.2.2.2.2.2.2.2.1
     (by decide) (by decide),
   (showQuestionOrAnswer_no_clue lengthOnly (str "9-x") readyPage (by decide)).2.2.2.2.2.2.2.2.2.2.1
     rfl⟩

/-! ## Cell ids -/

theorem cellId_decode :
    ∀ i < 6, ∀ j < 5,
      ((bodyRows[j]?).bind (fun row => row[i]?)).map (fun e => e.id) = some (cellId i j)
        ∧ arrayIndex (slice (cellId i j) 0 1) = some i
        ∧ arrayIndex (sliceFrom (cellId i j) 2) = some j
        ∧ isPlainId (cellId i j) = true := by
  decide

theorem cellClue_eq_clueAt (named : JSString → Bool) (id : JSString) (b : Board) (i j : Nat)
    (hi : arrayIndex (slice id 0 1) = some i) (hj : arrayIndex (sliceFrom id 2) = some j) :
    cellClue named id b = clueAt b i j := by
  unfold cellClue clueAt getProp
  simp only [hi, hj]
  cases hb : b[i]? with
  | none => simp
  | some cat =>
    simp only [Option.some_bind]
    cases hc : cat.clues[j]? with
    | none => simp
    | some c => simp

/-- C10: for `i < 6` and `j < 5`, the cell that `fillTable` puts in column `i` of row `j` has
the id `cellId i j`, made of word characters and a hyphen; `showQuestionOrAnswer` decodes
that id to category index `i` and clue index `j`, so the clue it reads is
`categories[i].clues[j]` and a click that reveals something writes the new state to that clue;
and two cells with the same id are the same cell. -/
theorem cellId_roundtrip (i j : Nat) (hi : i < CATEGORY_COUNT) (hj : j < QUESTION_COUNT) :
    ((bodyRows[j]?).bind (fun row => row[i]?)).map (fun e => e.id) = some (cellId i j)
      ∧ arrayIndex (slice (cellId i j) 0 1) = some i
      ∧ arrayIndex (sliceFrom (cellId i j) 2) = some j
      ∧ isPlainId (cellId i j) = true
      ∧ (∀ (named : JSString → Bool) (b : Board), cellClue named (cellId i j) b = clueAt b i j)
      ∧ (∀ (eng : Engine) (p : Page) (c : Clue),
          clueAt p.categories i j = some c →
            (c.showing = .null →
              clueAt (showQuestionOrAnswer eng (cellId i j) p).2.categories i j
                = some { c with showing := .question })
            ∧ (c.showing = .question →
              clueAt (showQuestionOrAnswer eng (cellId i j) p).2.categories i j
                = some { c with showing := .answer }))
      ∧ (∀ i2 j2, i2 < CATEGORY_COUNT → j2 < QUESTION_COUNT →
          cellId i2 j2 = cellId i j → i2 = i ∧ j2 = j) := by
  obtain ⟨d1, d2, d3, d4⟩ := cellId_decode i hi j hj
  refine ⟨d1, d2, d3, d4, fun named b => cellClue_eq_clueAt named _ b i j d2 d3, ?_, ?_⟩
  · intro eng p c hc
    have hsel := select_plain eng _ d4
    rw [← cellClue_eq_clueAt eng.named _ _ i j d2 d3] at hc
    obtain ⟨ci, qi, cat, hcat, hcl⟩ := (cellClue_eq_some eng.named _ _ c).mp hc
    constructor
    · intro hs
      obtain ⟨p2, h1, _, hc1, hc2⟩ := click_null eng _ p _ ci qi cat c hsel hcat hcl hs
      rw [h1, ← cellClue_eq_clueAt eng.named _ _ i j d2 d3]
      exact (cellClue_eq_some eng.named _ _ _).mpr ⟨ci, qi, _, hc1, hc2⟩
    · intro hs
      obtain ⟨p2, h1, _, hc1, hc2⟩ := click_question eng _ p _ ci qi cat c hsel hcat hcl hs
      rw [h1, ← cellClue_eq_clueAt eng.named _ _ i j d2 d3]
      exact (cellClue_eq_some eng.named _ _ _).mpr ⟨ci, qi, _, hc1, hc2⟩
  · intro i2 j2 hi2 hj2 heq
    obtain ⟨_, e2, e3, _⟩ := cellId_decode i2 hi2 j2 hj2
    rw [heq, d2] at e2
    rw [heq, d3] at e3
    injection e2 with e2
    injection e3 with e3
    exact ⟨e2.symm, e3.symm⟩

/-- C10, at column 3, row 4: the id is `3-4` and decodes to `(3, 4)`. -/
theorem cellId_roundtrip_witness :
    cellId 3 4 = str "3-4"
      ∧ ((bodyRows[4]?).bind (fun row => row[3]?)).map (fun e => e.id) = some (cellId 3 4)
      ∧ arrayIndex (slice (cellId 3 4) 0 1) = some 3
      ∧ arrayIndex (sliceFrom (cellId 3 4) 2) = some 4 :=
  ⟨by decide,
   (cellId_roundtrip 3 4 (by decide) (by decide)).1,
   (cellId_roundtrip 3 4 (by decide) (by decide)).2.1,
   (cellId_roundtrip 3 4 (by decide) (by decide)).2.2.1⟩

/-! ## Start and restart -/

theorem fillTable_button (E : CaseConv) (p : Page) : (fillTable E p).2.button = p.button := by
  unfold fillTable
  split <;> rfl

/-- C7, as stated, fails: when the category list cannot be fetched, `setupAndStart` rejects
and the button is left with the label `Loading...` and the `not-allowed` class on. -/
theorem setupAndStart_stuck_loading :
    setupAndStart latin1 offlineEnv startPage
      = (.error .network,
          { categories := [],
            button := { label := str "Loading...", notAllowed := true },
            view := [.spinner] }) := by
  rfl

/-- C7, amended: when the load fails, `setupAndStart` rejects with the same error and stops
before `hideLoadingView`: the button keeps the label `Loading...` with `not-allowed` flipped
from its value before the run, and the spinner stays; when the load succeeds, the call
succeeds and the button has the label `Restart` with `not-allowed` back at its value before
the run. -/
theorem setupAndStart_button (E : CaseConv) (env : Env) (p : Page) :
    (∀ e, (getAllCategoriesAndQuestions env p.categories).1 = .error e →
        (setupAndStart E env p).1 = .error e
          ∧ (setupAndStart E env p).2.button
              = { label := str "Loading...", notAllowed := !p.button.notAllowed }
          ∧ (setupAndStart E env p).2.view = [.spinner])
      ∧ (∀ b, (getAllCategoriesAndQuestions env p.categories).1 = .ok b →
        (setupAndStart E env p).1 = .ok ()
          ∧ (setupAndStart E env p).2.button
              = { label := str "Restart", notAllowed := p.button.notAllowed }) := by
  have hcat : (showLoadingView p).categories = p.categories := rfl
  rcases hload : getAllCategoriesAndQuestions env p.categories with ⟨r, cats⟩
  cases r with
  | error e0 =>
    have hs : setupAndStart E env p
        = (.error e0, { showLoadingView p with categories := cats }) := by
      simp only [setupAndStart, hcat, hload]
    refine ⟨?_, (fun b hb => nomatch hb)⟩
    intro e he
    injection he with he
    subst he
    rw [hs]
    exact ⟨rfl, rfl, rfl⟩
  | ok b0 =>
    have hs : setupAndStart E env p
        = (.ok (), addListeners (fillTable E
            (hideLoadingView { showLoadingView p with categories := cats })).2) := by
      simp only [setupAndStart, hcat, hload]
    refine ⟨(fun e he => nomatch he), ?_⟩
    intro b _
    rw [hs]
    refine ⟨rfl, ?_⟩
    show (fillTable E _).2.button = _
    rw [fillTable_button]
    simp [hideLoadingView, showLoadingView]

/-- C7, amended, in the offline world: the run fails and the button stays in the loading
presentation. -/
theorem setupAndStart_button_witness :
    (setupAndStart latin1 offlineEnv startPage).1 = .error .network
      ∧ (setupAndStart latin1 offlineEnv startPage).2.button
          = { label := str "Loading...", notAllowed := !startPage.button.notAllowed }
      ∧ (setupAndStart latin1 offlineEnv startPage).2.view = [.spinner] :=
  (setupAndStart_button latin1 offlineEnv startPage).1 .network rfl

/-! ## Title formatting -/

theorem asciiUpper_space (c : Nat) (h : isSpaceUnit c = true) : asciiUpper c = c := by
  unfold asciiUpper
  unfold isSpaceUnit at h
  simp only [Bool.or_eq_true, Bool.and_eq_true, decide_eq_true_eq, beq_iff_eq] at h
  rw [if_neg]
  omega

theorem not_word_of_space (c : Nat) (h : isSpaceUnit c = true) : isWordUnit c = false := by
  unfold isSpaceUnit at h
  simp only [Bool.or_eq_true, Bool.and_eq_true, decide_eq_true_eq, beq_iff_eq] at h
  unfold isWordUnit
  simp only [Bool.or_eq_false_iff, Bool.and_eq_false_iff, decide_eq_false_iff_not,
    beq_eq_false_iff_ne]
  omega

theorem not_space_of_word (c : Nat) (h : isWordUnit c = true) : isSpaceUnit c = false := by
  cases hs : isSpaceUnit c with
  | false => rfl
  | true => rw [not_word_of_space c hs] at h; cases h

theorem isSpaceUnit_asciiUpper (c : Nat) : isSpaceUnit (asciiUpper c) = isSpaceUnit c := by
  unfold asciiUpper
  split
  · next h =>
    have h1 : isSpaceUnit c = false := by
      apply not_space_of_word
      unfold isWordUnit
      simp only [Bool.or_eq_true, Bool.and_eq_true, decide_eq_true_eq, beq_iff_eq]
      omega
    rw [h1]
    unfold isSpaceUnit
    simp only [Bool.or_eq_false_iff, Bool.and_eq_false_iff, decide_eq_false_iff_not,
      beq_eq_false_iff_ne]
    omega
  · rfl

theorem upcaseWordStarts_not_word (b : Bool) (c : Nat) (rest : JSString)
    (h : isWordUnit c = false) :
    upcaseWordStarts b (c :: rest) = c :: upcaseWordStarts (isSpaceUnit c) rest := by
  simp [upcaseWordStarts, h]

theorem replaceMatches_eq (upper : JSString → JSString)
    (hU : ∀ m : JSString, (∀ c ∈ m, isWordUnit c = true ∨ isSpaceUnit c = true) →
      upper m = m.map asciiUpper) :
    ∀ (n : Nat) (s : JSString), s.length ≤ n →
      replaceMatches upper true s = upcaseWordStarts true s
        ∧ replaceMatches upper false s = upcaseWordStarts false s := by
  intro n
  induction n with
  | zero =>
    intro s hs
    have : s = [] := List.length_eq_zero.mp (by omega)
    subst this
    exact ⟨rfl, rfl⟩
  | succ n ih =>
    intro s hs
    match s, hs with
    | [], _ => exact ⟨rfl, rfl⟩
    | [c], _ =>
      constructor
      · by_cases hw : isWordUnit c = true
        · have := hU [c] (by intro x hx; simp at hx; subst hx; exact Or.inl hw)
          simp [replaceMatches, upcaseWordStarts, hw, this]
        · simp [replaceMatches, upcaseWordStarts, hw]
      · simp [replaceMatches, upcaseWordStarts]
    | c :: d :: rest, hs =>
      have hlen1 : (d :: rest).length ≤ n := by simp at hs ⊢; omega
      have hlen2 : rest.length ≤ n := by simp at hs ⊢; omega
      obtain ⟨_, i1⟩ := ih (d :: rest) hlen1
      obtain ⟨_, i2⟩ := ih rest hlen2
      have tail : (if isSpaceUnit c && isWordUnit d
            then upper [c, d] ++ replaceMatches upper false rest
            else c :: replaceMatches upper false (d :: rest))
          = c :: upcaseWordStarts (isSpaceUnit c) (d :: rest) := by
        by_cases hm : (isSpaceUnit c && isWordUnit d) = true
        · obtain ⟨hsp, hwd⟩ := Bool.and_eq_true_iff.mp hm
          have := hU [c, d] (by
            intro x hx
            simp at hx
            rcases hx with rfl | rfl
            · exact Or.inr hsp
            · exact Or.inl hwd)
          rw [if_pos hm, this, i2]
          simp [upcaseWordStarts, hsp, hwd, asciiUpper_space c hsp, not_space_of_word d hwd]
        · rw [if_neg hm, i1]
          by_cases hsp : isSpaceUnit c = true
          · have hwd : isWordUnit d = false := by
              cases hd : isWordUnit d with
              | false => rfl
              | true => exact absurd (by simp [hsp, hd]) hm
            rw [hsp, upcaseWordStarts_not_word true d rest hwd,
              upcaseWordStarts_not_word false d rest hwd]
          · have : isSpaceUnit c = false := by simpa using hsp
            rw [this]
      constructor
      · by_cases hw : isWordUnit c = true
        · have := hU [c] (by intro x hx; simp at hx; subst hx; exact Or.inl hw)
          simp [replaceMatches, upcaseWordStarts, hw, this, i1, not_space_of_word c hw]
        · have hw2 : isWordUnit c = false := by simpa using hw
          rw [upcaseWordStarts_not_word true c _ hw2, ← tail]
          simp [replaceMatches, hw2]
      · have e : upcaseWordStarts false (c :: d :: rest)
            = c :: upcaseWordStarts (isSpaceUnit c) (d :: rest) := by
          simp [upcaseWordStarts]
        rw [e, ← tail]
        simp [replaceMatches]

theorem upcaseWordStarts_shape (s : JSString) :
    ∀ b : Bool, (upcaseWordStarts b s).length = s.length
      ∧ (upcaseWordStarts b s).map isSpaceUnit = s.map isSpaceUnit := by
  induction s with
  | nil => intro b; exact ⟨rfl, rfl⟩
  | cons c rest ih =>
    intro b
    obtain ⟨h1, h2⟩ := ih (isSpaceUnit c)
    constructor
    · simp [upcaseWordStarts, h1]
    · simp only [upcaseWordStarts, List.map_cons, h2]
      congr 1
      split
      · exact isSpaceUnit_asciiUpper c
      · rfl

theorem upcaseRunStarts_eq (upper : JSString → JSString)
    (hU : ∀ m : JSString, (∀ c ∈ m, isWordUnit c = true ∨ isSpaceUnit c = true) →
      upper m = m.map asciiUpper) (s : JSString)
    (hP : ∀ c ∈ s, isWordUnit c = false → upper [c] = [c]) :
    ∀ b : Bool, upcaseRunStarts upper b s = upcaseWordStarts b s := by
  induction s with
  | nil => intro b; rfl
  | cons c rest ih =>
    intro b
    have ih2 := ih (fun x hx => hP x (List.mem_cons_of_mem _ hx)) (isSpaceUnit c)
    simp only [upcaseRunStarts, upcaseWordStarts, ih2]
    by_cases hw : isWordUnit c = true
    · have hs := not_space_of_word c hw
      have hu := hU [c] (by intro x hx; simp at hx; subst hx; exact Or.inl hw)
      cases b <;> simp [hw, hs, hu]
    · have hw2 : isWordUnit c = false := by simpa using hw
      have hu := hP c (List.mem_cons_self _ _) hw2
      cases b <;> cases hs : isSpaceUnit c <;> simp [hw2, hu]

theorem latin1_upper (m : JSString)
    (h : ∀ c ∈ m, isWordUnit c = true ∨ isSpaceUnit c = true) :
    latin1.toUpperCase m = m.map asciiUpper := by
  show upperUnits m = m.map asciiUpper
  induction m with
  | nil => rfl
  | cons c rest ih =>
    have hc : upperUnit c = [asciiUpper c] := by
      have h0 := h c (List.mem_cons_self _ _)
      unfold isWordUnit isSpaceUnit at h0
      simp only [Bool.or_eq_true, Bool.and_eq_true, decide_eq_true_eq, beq_iff_eq] at h0
      unfold upperUnit asciiUpper
      by_cases h1 : 97 ≤ c ∧ c ≤ 122
      · simp [h1]
      · rw [if_neg (by omega), if_neg (by omega), if_neg (by omega), if_neg (by omega),
          if_neg h1]
    simp only [upperUnits, hc, List.map_cons, ih (fun x hx => h x (List.mem_cons_of_mem _ hx))]
    rfl

theorem latin1_lower (m : JSString) (h : ∀ c ∈ m, c < 128) :
    latin1.toLowerCase m = m.map asciiLower := by
  show m.map lowerUnit = m.map asciiLower
  apply List.map_congr_left
  intro c hc
  have := h c hc
  unfold lowerUnit asciiLower
  by_cases h1 : 65 ≤ c ∧ c ≤ 90
  · simp [h1]
  · rw [if_neg (by omega), if_neg h1]

/-- C6, as stated, fails: the title `élan` comes back as `élan`, while the input lowercased
with the first character of every run uppercased is `Élan`. -/
theorem toTitleCase_accented_start :
    toTitleCase latin1 (str "élan") = str "élan"
      ∧ specTitleCase latin1 (str "élan") = str "Élan"
      ∧ toTitleCase latin1 (str "élan") ≠ specTitleCase latin1 (str "élan") := by
  decide

/-- C6, amended: relative to the case conversions of the engine (exact on ASCII, and leaving
whitespace alone), `toTitleCase` gives the lowercased input in which every ASCII word
character that starts the string or follows a whitespace character is uppercased; the result
has the length and the whitespace of the lowercased input; it is the input lowercased with the
first character of every whitespace-delimited run uppercased whenever upper case leaves the
non-word characters of the lowercased input alone; `literature and arts` gives
`Literature And Arts` and `ALREADY UPPER` gives `Already Upper`. -/
theorem toTitleCase_word_starts (E : CaseConv) (s : JSString)
    (hU : ∀ m : JSString, (∀ c ∈ m, isWordUnit c = true ∨ isSpaceUnit c = true) →
      E.toUpperCase m = m.map asciiUpper)
    (hL : ∀ m : JSString, (∀ c ∈ m, c < 128) → E.toLowerCase m = m.map asciiLower) :
    toTitleCase E s = upcaseWordStarts true (E.toLowerCase s)
      ∧ (toTitleCase E s).length = (E.toLowerCase s).length
      ∧ (toTitleCase E s).map isSpaceUnit = (E.toLowerCase s).map isSpaceUnit
      ∧ ((∀ c ∈ E.toLowerCase s, isWordUnit c = false → E.toUpperCase [c] = [c]) →
          toTitleCase E s = specTitleCase E s)
      ∧ toTitleCase E (str "literature and arts") = str "Literature And Arts"
      ∧ toTitleCase E (str "ALREADY UPPER") = str "Already Upper" := by
  have key : ∀ t, toTitleCase E t = upcaseWordStarts true (E.toLowerCase t) := by
    intro t
    exact (replaceMatches_eq E.toUpperCase hU _ (E.toLowerCase t) (Nat.le_refl _)).1
  refine ⟨key s, ?_, ?_, ?_, ?_, ?_⟩
  · rw [key]; exact (upcaseWordStarts_shape _ true).1
  · rw [key]; exact (upcaseWordStarts_shape _ true).2
  · intro hP
    rw [key]
    exact (upcaseRunStarts_eq E.toUpperCase hU _ hP true).symm
  · rw [key, hL _ (by decide)]
    decide
  · rw [key, hL _ (by decide)]
    decide

/-- C6, amended, at the Latin-1 case conversion and the title `élan vital`: the result is
`élan Vital`. -/
theorem toTitleCase_word_starts_witness :
    toTitleCase latin1 (str "élan vital")
        = upcaseWordStarts true (latin1.toLowerCase (str "élan vital"))
      ∧ toTitleCase latin1 (str "élan vital") = str "élan Vital"
      ∧ toTitleCase latin1 (str "literature and arts") = str "Literature And Arts" :=
  ⟨(toTitleCase_word_starts latin1 (str "élan vital") latin1_upper latin1_lower).1,
   by decide,
   (toTitleCase_word_starts latin1 (str "élan vital") latin1_upper latin1_lower).2.2.2.2.1⟩

end Jeopardy
